import Mathlib

set_option exponentiation.threshold 4096
set_option maxRecDepth 100000

/-!
# stitz-client: the front-end control script `static/script.js`

A shallow embedding of the script's bridge shim (`call`), inbound dispatcher
(`handle`) and the UI flows built on them, followed by theorems about them.

Modelling conventions.

* The DOM is the record `UI`: one field per element property the script reads
  or writes.  Every element the script looks up is assumed to exist.  The
  attributes of the three `select` elements are the parameter `Markup`.
* The host is a function from the request object it is handed to the sequence
  of callback invocations it makes on that object, oldest first.  An empty
  sequence is a host that never answers.
* A flow is a function `World → World` giving the state reached once the host
  has answered every request of that flow; other flows do not interleave.
* ECMAScript numbers are binary64 numbers.  Every finite one is a multiple of
  `2 ^ -1074`, so a finite number is given by its sign and that multiple, and
  every operation rounds to the nearest such number, ties to the even
  mantissa.
* Strings are sequences of Unicode code points, not UTF-16 code units; the
  two agree on every operation below whose pattern is ASCII.
-/

namespace StitzClient

/-! ## Futures and the host bridge -/

/-- Rejection reason built by `call`: the record `{code, message}`. -/
structure Reason where
  code : Int
  message : String
deriving DecidableEq

/-- State of the future returned by `call`. -/
inductive PromiseState where
  | pending
  | fulfilled (value : String)
  | rejected (reason : Reason)
deriving DecidableEq

/-- The `resolve` function of a future: settles it only while it is pending. -/
def resolve (value : String) : PromiseState → PromiseState
  | .pending => .fulfilled value
  | st => st

/-- The `reject` function of a future: settles it only while it is pending. -/
def reject (reason : Reason) : PromiseState → PromiseState
  | .pending => .rejected reason
  | st => st

/-- The object `call` hands to `window.javaCall`; the two callback slots act on
the state of the future that `call` returns. -/
structure BridgeRequest where
  request : String
  persistent : Bool
  onSuccess : String → PromiseState → PromiseState
  onFailure : Int → String → PromiseState → PromiseState

/-- One invocation, by the host, of a callback slot of a request object. -/
inductive HostCallback where
  | onSuccess (value : String)
  | onFailure (code : Int) (message : String)
deriving DecidableEq

/-- The host: the callback invocations it makes on a request, oldest first. -/
abbrev Host := String → Bool → List HostCallback

/-- The request object built by `call(message, persistent)`; `none` is an
omitted flag, which takes the default `false`. -/
def bridgeArg (message : String) (persistent : Option Bool) : BridgeRequest :=
  { request := message
    persistent := persistent.getD false
    onSuccess := resolve
    onFailure := fun error_code error_message =>
      reject { code := error_code, message := error_message } }

/-- The host invokes one callback slot of a request object. -/
def deliver (arg : BridgeRequest) : HostCallback → PromiseState → PromiseState
  | .onSuccess value => arg.onSuccess value
  | .onFailure code message => arg.onFailure code message

/-- State of the future after the host made the given callback invocations. -/
def settle (arg : BridgeRequest) (callbacks : List HostCallback) : PromiseState :=
  callbacks.foldl (fun st cb => deliver arg cb st) .pending

/-! ## ECMAScript numbers -/

/-- The number of smallest positive binary64 values in one: `2 ^ 1074`. -/
def scale : Nat := 2 ^ 1074

/-- Halving `n` until it is below 2, at most `fuel` times: the number of
halvings. -/
def halvings : Nat → Nat → Nat
  | 0, _ => 0
  | fuel + 1, n => if 2 ≤ n then halvings fuel (n / 2) + 1 else 0

/-- The position of the leading binary digit of `n`: `⌊log₂ n⌋`, and 0 for 0. -/
def floorLog2 (n : Nat) : Nat :=
  halvings n n

/-- The binary64 number nearest to `t / d`, ties to the even mantissa, both the
argument and the result counted in multiples of `2 ^ -1074`. -/
def roundRatio (t d : Nat) : Nat :=
  let s := floorLog2 (t / d) - 52
  let m := t / (d * 2 ^ s)
  let r := t % (d * 2 ^ s)
  if d * 2 ^ s < 2 * r ∨ (2 * r = d * 2 ^ s ∧ m % 2 = 1) then (m + 1) * 2 ^ s else m * 2 ^ s

/-- ECMAScript numbers: `NaN`, the two infinities, and the finite binary64
numbers, each given by its sign and its magnitude as a multiple of
`2 ^ -1074`. -/
inductive JsNumber where
  | nan
  | inf (negative : Bool)
  | fin (negative : Bool) (units : Nat)
deriving DecidableEq

/-- The number nearest to `± t / d` units, infinite from `2 ^ 1024` on. -/
def JsNumber.ofRatio (negative : Bool) (t d : Nat) : JsNumber :=
  if roundRatio t d < 2 ^ 1024 * scale then .fin negative (roundRatio t d) else .inf negative

/-- The number for a non-negative integer. -/
def JsNumber.ofNat (n : Nat) : JsNumber :=
  .ofRatio false (n * scale) 1

/-- The quotient `x / d` by a positive integer literal `d`. -/
def JsNumber.div : JsNumber → Nat → JsNumber
  | .nan, _ => .nan
  | .inf negative, _ => .inf negative
  | .fin negative units, d => .fin negative (roundRatio units d)

/-- The product `x * c` by a positive integer literal `c`. -/
def JsNumber.mul : JsNumber → Nat → JsNumber
  | .nan, _ => .nan
  | .inf negative, _ => .inf negative
  | .fin negative units, c => .ofRatio negative (units * c) 1

/-- The remainder `x % d` by a positive integer literal `d`: exact, with the
sign of `x`. -/
def JsNumber.mod : JsNumber → Nat → JsNumber
  | .nan, _ => .nan
  | .inf _, _ => .nan
  | .fin negative units, d => .fin negative (units % (d * scale))

/-- `Math.floor(x)`. -/
def JsNumber.floor : JsNumber → JsNumber
  | .nan => .nan
  | .inf negative => .inf negative
  | .fin false units => .fin false (units / scale * scale)
  | .fin true units => .fin true ((units + (scale - 1)) / scale * scale)

/-- `Number::equal`: `NaN` equals nothing, the two zeros are equal. -/
def JsNumber.equal : JsNumber → JsNumber → Bool
  | .inf a, .inf b => a == b
  | .fin a m, .fin b n => m == n && (m == 0 || a == b)
  | _, _ => false

/-- The comparison `x == i` of a number with a loop counter. -/
def JsNumber.looseEq (x : JsNumber) (i : Nat) : Bool :=
  x.equal (.ofNat i)

/-- Whether `digits * 10 ^ power` rounds to the number of `units`. -/
def roundsTo (units digits : Nat) (power : Int) : Bool :=
  match power with
  | .ofNat p => roundRatio (digits * 10 ^ p * scale) 1 == units
  | .negSucc p => roundRatio (digits * scale) (10 ^ (p + 1)) == units

/-- Number of decimal digits of a positive integer. -/
def digitCount (n : Nat) : Nat :=
  (Nat.toDigits 10 n).length

/-- The least `j` from `j0` on with `units * 10 ^ j ≥ scale`, searched for at
most `fuel` steps. -/
def leadingZeros (units : Nat) : Nat → Nat → Nat
  | 0, j => j
  | fuel + 1, j => if scale ≤ units * 10 ^ j then j else leadingZeros units fuel (j + 1)

/-- The `n` with `10 ^ (n - 1) ≤ x < 10 ^ n` for a positive number `x`. -/
def decimalExponent (units : Nat) : Int :=
  if scale ≤ units then (digitCount (units / scale) : Int)
  else 1 - (leadingZeros units 400 1 : Int)

/-- `⌊x / 10 ^ power⌋` for a number `x` of `units`. -/
def scaledFloor (units : Nat) (power : Int) : Nat :=
  match power with
  | .ofNat p => units / (scale * 10 ^ p)
  | .negSucc p => units * 10 ^ (p + 1) / scale

/-- Whether `x` lies strictly below (`lt`), at (`eq`) or above (`gt`) the
midpoint `(2 * s + 1) / 2 * 10 ^ power`. -/
def compareMidpoint (units s : Nat) (power : Int) : Ordering :=
  match power with
  | .ofNat p => compare (2 * units) ((2 * s + 1) * 10 ^ p * scale)
  | .negSucc p => compare (2 * units * 10 ^ (p + 1)) ((2 * s + 1) * scale)

/-- The digits `s`, their number `k` and the exponent `n` of `Number::toString`
for a positive number: the least `k` from the given one on for which some
`s * 10 ^ (n - k)` with `k` digits rounds to the number, the nearest such `s`,
the even one on a tie. -/
def shortestDigits (units : Nat) (n : Int) : Nat → Nat → Nat × Nat × Int
  | 0, k => (scaledFloor units (n - k), k, n)
  | fuel + 1, k =>
    let lo := scaledFloor units (n - k)
    let okLo := roundsTo units lo (n - k)
    let okHi := roundsTo units (lo + 1) (n - k)
    let pickHi :=
      okHi && (!okLo ||
        (match compareMidpoint units lo (n - k) with
          | .lt => false
          | .gt => true
          | .eq => lo % 2 == 1))
    if pickHi then
      if lo + 1 = 10 ^ k then (10 ^ (k - 1), k, n + 1) else (lo + 1, k, n)
    else if okLo then (lo, k, n)
    else shortestDigits units n fuel (k + 1)

/-- The text of `Number::toString` from the digits `s`, their number `k` and
the exponent `n`. -/
def formatDigits (s k : Nat) (n : Int) : String :=
  let digits := (Nat.toDigits 10 s)
  if (k : Int) ≤ n ∧ n ≤ 21 then
    String.mk (digits ++ List.replicate (n - k).toNat '0')
  else if 0 < n ∧ n ≤ 21 then
    String.mk (digits.take n.toNat ++ '.' :: digits.drop n.toNat)
  else if -6 < n ∧ n ≤ 0 then
    String.mk ('0' :: '.' :: List.replicate (-n).toNat '0' ++ digits)
  else
    let e := n - 1
    let exponent := (if 0 ≤ e then '+' else '-') :: Nat.toDigits 10 e.natAbs
    if k = 1 then String.mk (digits ++ 'e' :: exponent)
    else String.mk (digits.take 1 ++ '.' :: digits.drop 1 ++ 'e' :: exponent)

/-- `Number::toString` in radix 10. -/
def JsNumber.toString : JsNumber → String
  | .nan => "NaN"
  | .inf false => "Infinity"
  | .inf true => "-Infinity"
  | .fin negative units =>
    if units = 0 then "0"
    else
      let r := shortestDigits units (decimalExponent units) 17 1
      (if negative then "-" else "") ++ formatDigits r.1 r.2.1 r.2.2

/-- White space and line terminators of ECMAScript, by code point. -/
def isWhiteSpace (c : Char) : Bool :=
  decide (c.toNat ∈ [9, 10, 11, 12, 13, 32, 160, 5760, 8232, 8233, 8239, 8287, 12288, 65279])
    || (decide (8192 ≤ c.toNat) && decide (c.toNat ≤ 8202))

/-- Value of a digit in the given radix (2, 8, 10 or 16), if the character is
one. -/
def digitValue (radix : Nat) (c : Char) : Option Nat :=
  let n := c.toNat
  if 48 ≤ n ∧ n ≤ 57 ∧ n - 48 < radix then some (n - 48)
  else if radix = 16 ∧ 97 ≤ n ∧ n ≤ 102 then some (n - 87)
  else if radix = 16 ∧ 65 ≤ n ∧ n ≤ 70 then some (n - 55)
  else none

/-- Longest prefix of digits of the given radix, as their values. -/
def digitPrefix (radix : Nat) : List Char → List Nat
  | [] => []
  | c :: cs =>
    match digitValue radix c with
    | some d => d :: digitPrefix radix cs
    | none => []

/-- The integer written by a list of digit values, most significant first. -/
def digitsToNat (radix : Nat) (ds : List Nat) : Nat :=
  ds.foldl (fun acc d => acc * radix + d) 0

/-- Splits an optional leading sign off: whether it is `-`, and the rest. -/
def takeSign : List Char → Bool × List Char
  | '-' :: cs => (true, cs)
  | '+' :: cs => (false, cs)
  | cs => (false, cs)

/-- The radix `parseInt` settles on when it is given none, and the text left to
read: 16 after a `0x` prefix, else 10. -/
def stripHexPrefix : List Char → Nat × List Char
  | '0' :: 'x' :: rest => (16, rest)
  | '0' :: 'X' :: rest => (16, rest)
  | s => (10, s)

/-- The global `parseInt(string)` with no radix argument. -/
def parseInt (string : String) : JsNumber :=
  let s := string.data.dropWhile isWhiteSpace
  let (negative, s) := takeSign s
  let (radix, s) := stripHexPrefix s
  match digitPrefix radix s with
  | [] => .nan
  | ds => .ofRatio negative (digitsToNat radix ds * scale) 1

/-- The radix and the digits of a `0x`, `0o` or `0b` literal. -/
def radixPrefix : List Char → Option (Nat × List Char)
  | '0' :: 'x' :: rest => some (16, rest)
  | '0' :: 'X' :: rest => some (16, rest)
  | '0' :: 'o' :: rest => some (8, rest)
  | '0' :: 'O' :: rest => some (8, rest)
  | '0' :: 'b' :: rest => some (2, rest)
  | '0' :: 'B' :: rest => some (2, rest)
  | _ => none

/-- The exponent part of a decimal literal: its value and what follows it;
`none` when an `e` is not followed by an integer. -/
def exponentPart : List Char → Option (Int × List Char)
  | 'e' :: rest | 'E' :: rest =>
    let (negative, rest) := takeSign rest
    match digitPrefix 10 rest with
    | [] => none
    | ds =>
      some (if negative then -(digitsToNat 10 ds : Int) else (digitsToNat 10 ds : Int),
        rest.drop ds.length)
  | rest => some (0, rest)

/-- The fraction part of a decimal literal: its digits and what follows it. -/
def fractionPart : List Char → List Nat × List Char
  | '.' :: rest => (digitPrefix 10 rest, rest.drop (digitPrefix 10 rest).length)
  | rest => ([], rest)

/-- The number `± digits * 10 ^ power`, rounded. -/
def JsNumber.ofDecimal (negative : Bool) (digits : Nat) (power : Int) : JsNumber :=
  match power with
  | .ofNat p => .ofRatio negative (digits * 10 ^ p * scale) 1
  | .negSucc p => .ofRatio negative (digits * scale) (10 ^ (p + 1))

/-- An unsigned decimal literal: `Infinity`, or digits with an optional fraction
and an optional exponent. -/
def unsignedDecimal (negative : Bool) (s : List Char) : JsNumber :=
  if s = "Infinity".data then .inf negative
  else
    let whole := digitPrefix 10 s
    let (fraction, rest) := fractionPart (s.drop whole.length)
    if whole = [] ∧ fraction = [] then .nan
    else
      match exponentPart rest with
      | some (e, []) =>
        .ofDecimal negative (digitsToNat 10 (whole ++ fraction)) (e - fraction.length)
      | _ => .nan

/-- The coercion `ToNumber` of a string. -/
def toNumber (string : String) : JsNumber :=
  let s := ((string.data.dropWhile isWhiteSpace).reverse.dropWhile isWhiteSpace).reverse
  if s = [] then .fin false 0
  else
    match radixPrefix s with
    | some (radix, ds) =>
      if ds ≠ [] ∧ (digitPrefix radix ds).length = ds.length then
        .ofRatio false (digitsToNat radix (digitPrefix radix ds) * scale) 1
      else .nan
    | none =>
      let (negative, s) := takeSign s
      unsignedDecimal negative s

/-! ## ECMAScript strings -/

/-- `String.prototype.padStart(maxLength, fillString)`. -/
def padStart (s : String) (maxLength : Nat) (fillString : String) : String :=
  if maxLength ≤ s.length ∨ fillString = "" then s
  else
    let fillLen := maxLength - s.length
    String.mk ((List.replicate fillLen fillString.data).flatten.take fillLen) ++ s

/-- First occurrence of a non-empty separator: the text before it and the text
after it. -/
def findSep (sep : List Char) : List Char → Option (List Char × List Char)
  | [] => none
  | c :: cs =>
    if sep.isPrefixOf (c :: cs) then some ([], (c :: cs).drop sep.length)
    else (findSep sep cs).map fun p => (c :: p.1, p.2)

/-- The loop of `String.prototype.split`: cut at the first occurrence and go on
after it.  The fuel bounds the number of cuts. -/
def splitFuel (sep : List Char) : Nat → List Char → List (List Char)
  | 0, s => [s]
  | fuel + 1, s =>
    match findSep sep s with
    | none => [s]
    | some (before, after) => before :: splitFuel sep fuel after

/-- `String.prototype.split(separator)` with a string separator and no limit. -/
def split (s : String) (separator : String) : List String :=
  if separator.data = [] then s.data.map fun c => String.mk [c]
  else (splitFuel separator.data s.data.length s.data).map String.mk

/-! ## The page -/

/-- An `option` element as built by `loadSettings`. -/
structure OptionElement where
  value : String
  innerText : String
  selected : Bool
deriving DecidableEq

/-- The attributes of a `select` element that decide which of its options it
keeps selected: whether it carries `multiple`, and its display size.  They come
from the markup of the page, which is not part of the script. -/
structure SelectMarkup where
  multiple : Bool
  displaySize : Nat
deriving DecidableEq

/-- The markup of the three `select` elements of the settings dialog. -/
structure Markup where
  selectAudioIn : SelectMarkup
  selectAudioOut : SelectMarkup
  selectAudioClip : SelectMarkup

/-- Unselects every selected option but the last one. -/
def keepLastSelected : List OptionElement → List OptionElement
  | [] => []
  | opt :: rest =>
    if rest.any (fun o => o.selected) then
      { opt with selected := false } :: keepLastSelected rest
    else opt :: rest

/-- The selectedness setting algorithm of a `select` element, run when its
options change: without `multiple`, a drop-down (display size 1) with no
selected option selects its first one, and of several selected options only
the last stays selected. -/
def setSelectedness (markup : SelectMarkup) (options : List OptionElement) :
    List OptionElement :=
  if markup.multiple then options
  else if options.all (fun o => !o.selected) then
    if markup.displaySize = 1 then
      match options with
      | [] => []
      | opt :: rest => { opt with selected := true } :: rest
    else options
  else keepLastSelected options

/-- The element properties of the page that the script reads or writes. -/
structure UI where
  loginModalOpen : Bool
  loginModalUsername : String
  loginModalUsernameInvalid : Bool
  loginModalDisplayName : String
  loginModalPassword : String
  loginModalPasswordInvalid : Bool
  loginModalPersist : Bool
  callIncomingModalOpen : Bool
  callIncomingModalCallerName : String
  callIncomingModalCallerNumber : String
  callIncomingConfirmModalOpen : Bool
  callOutgoingModalOpen : Bool
  callOutgoingModalCallerName : String
  callOutgoingModalCallerNumber : String
  settingsModalOpen : Bool
  settingsInputDisplayName : String
  settingsSelectAudioIn : List OptionElement
  settingsSelectAudioOut : List OptionElement
  settingsSelectAudioClip : List OptionElement
  settingsInputAudioInVolume : String
  settingsInputAudioOutVolume : String
  settingsInputAudioClipVolume : String
  settingsAudioInVolumeDisplay : String
  settingsAudioOutVolumeDisplay : String
  settingsAudioClipVolumeDisplay : String
  callInput : String
  notInCallHidden : Bool
  inCallHidden : Bool
  callPeerName : String
  callPeerNumber : String
  callDuration : String
  callMuteBtnMuted : Bool
  callDeafenBtnDeafened : Bool
  internalErrorReason : String
  internalErrorModalOpen : Bool
deriving DecidableEq

/-- Everything the script can change: the page, the requests made on the host
bridge (oldest first), the console, and the rejections nobody handled. -/
structure World where
  ui : UI
  bridge : List BridgeRequest
  console : List String
  unhandled : List Reason

/-- The `value` of a `select` element: the value of its first selected option,
the empty string when it has none. -/
def selectValue (options : List OptionElement) : String :=
  match options.find? (fun opt => opt.selected) with
  | some opt => opt.value
  | none => ""

/-! ## The script -/

/-- `call(message, persistent)`: one invocation of the host bridge; returns the
future, given here by the state the host's callback invocations leave it in. -/
def call (host : Host) (message : String) (persistent : Option Bool) (w : World) :
    World × PromiseState :=
  let arg := bridgeArg message persistent
  ({ w with bridge := w.bridge ++ [arg] }, settle arg (host arg.request arg.persistent))

/-- The statement `x = await call(message); k x` of an `async` function whose own
future nobody observes: resumes with the payload, stops with an unhandled
rejection when the call is rejected, and stays suspended while it is pending. -/
def awaitCall (host : Host) (message : String) (w : World)
    (k : String → World → World) : World :=
  match call host message none w with
  | (w1, .fulfilled value) => k value w1
  | (w1, .rejected reason) => { w1 with unhandled := w1.unhandled ++ [reason] }
  | (w1, .pending) => w1

/-- `console.log(message)`. -/
def consoleLog (message : String) (w : World) : World :=
  { w with console := w.console ++ [message] }

/-- `ifdebug(fn)`: `call('debug').then(_ => fn(), _ => { })`. -/
def ifdebug (host : Host) (fn : World → World) (w : World) : World :=
  match call host "debug" none w with
  | (w1, .fulfilled _) => fn w1
  | (w1, .rejected _) => w1
  | (w1, .pending) => w1

/-- `showError(reason)`. -/
def showError (reason : String) (w : World) : World :=
  { w with ui := { w.ui with internalErrorReason := reason, internalErrorModalOpen := true } }

/-- `cancelCallIncoming()`. -/
def cancelCallIncoming (w : World) : World :=
  { w with ui := { w.ui with callIncomingModalOpen := false } }

/-- `promptLogin()`. -/
def promptLogin (host : Host) (w : World) : World :=
  awaitCall host "getUsername" w fun username w =>
  let w := { w with ui := { w.ui with loginModalUsername := username } }
  awaitCall host "getDisplayName" w fun displayName w =>
  let w := { w with ui := { w.ui with loginModalDisplayName := displayName } }
  { w with ui := { w.ui with loginModalOpen := true } }

/-- `handle(message)`. -/
def handle (host : Host) (message : String) (w : World) : World :=
  let w := ifdebug host (consoleLog message) w
  if message = "require-login" then promptLogin host w
  else if message = "cancel-incoming-call" then cancelCallIncoming w
  else w

/-- The `forEach` loop of `loadSettings` over a device list, with its counter
`i`: one `option` per device. -/
def buildOptions (devices : List String) (selected : JsNumber) : List OptionElement :=
  (devices.foldl
    (fun (st : Nat × List OptionElement) device =>
      let i := st.1
      let opt : OptionElement :=
        { value := (JsNumber.ofNat i).toString
          innerText := device
          selected := selected.looseEq i }
      (i + 1, st.2 ++ [opt]))
    (0, [])).2

/-- `loadSettings()`. -/
def loadSettings (markup : Markup) (host : Host) (w : World) : World :=
  awaitCall host "audioRefreshDevices" w fun _ w =>
  awaitCall host "audioListIn" w fun listIn w =>
  let inDevices := split listIn ", "
  awaitCall host "audioListOut" w fun listOut w =>
  let outDevices := split listOut ", "
  awaitCall host "audioListClip" w fun listClip w =>
  let clipDevices := split listClip ", "
  awaitCall host "audioGetIn" w fun getIn w =>
  let selectedIn := parseInt getIn
  awaitCall host "audioGetOut" w fun getOut w =>
  let selectedOut := parseInt getOut
  awaitCall host "audioGetClip" w fun getClip w =>
  let selectedClip := parseInt getClip
  let inOptions := buildOptions inDevices selectedIn
  let outOptions := buildOptions outDevices selectedOut
  let clipOptions := buildOptions clipDevices selectedClip
  awaitCall host "getDisplayName" w fun displayName w =>
  let w := { w with ui := { w.ui with settingsInputDisplayName := displayName } }
  let w := { w with ui := { w.ui with
    settingsSelectAudioIn := setSelectedness markup.selectAudioIn inOptions } }
  let w := { w with ui := { w.ui with
    settingsSelectAudioOut := setSelectedness markup.selectAudioOut outOptions } }
  let w := { w with ui := { w.ui with
    settingsSelectAudioClip := setSelectedness markup.selectAudioClip clipOptions } }
  awaitCall host "audioGetInVolume" w fun inVolume w =>
  let w := { w with ui := { w.ui with
    settingsInputAudioInVolume := ((toNumber inVolume).div 100).floor.toString } }
  awaitCall host "audioGetOutVolume" w fun outVolume w =>
  let w := { w with ui := { w.ui with
    settingsInputAudioOutVolume := ((toNumber outVolume).div 100).floor.toString } }
  awaitCall host "audioGetClipVolume" w fun clipVolume w =>
  let w := { w with ui := { w.ui with
    settingsInputAudioClipVolume := ((toNumber clipVolume).div 100).floor.toString } }
  let w := { w with ui := { w.ui with
    settingsAudioInVolumeDisplay := w.ui.settingsInputAudioInVolume ++ "%" } }
  let w := { w with ui := { w.ui with
    settingsAudioOutVolumeDisplay := w.ui.settingsInputAudioOutVolume ++ "%" } }
  let w := { w with ui := { w.ui with
    settingsAudioClipVolumeDisplay := w.ui.settingsInputAudioClipVolume ++ "%" } }
  { w with ui := { w.ui with settingsModalOpen := true } }

/-- `saveSettings()`: seven requests, none of them awaited. -/
def saveSettings (host : Host) (w : World) : World :=
  let w := (call host ("setDisplayName " ++ w.ui.settingsInputDisplayName) none w).1
  let w := (call host ("audioSetIn " ++ selectValue w.ui.settingsSelectAudioIn) none w).1
  let w := (call host ("audioSetOut " ++ selectValue w.ui.settingsSelectAudioOut) none w).1
  let w := (call host ("audioSetClip " ++ selectValue w.ui.settingsSelectAudioClip) none w).1
  let w := (call host ("audioSetInVolume " ++
    ((toNumber w.ui.settingsInputAudioInVolume).mul 100).toString) none w).1
  let w := (call host ("audioSetOutVolume " ++
    ((toNumber w.ui.settingsInputAudioOutVolume).mul 100).toString) none w).1
  let w := (call host ("audioSetClipVolume " ++
    ((toNumber w.ui.settingsInputAudioClipVolume).mul 100).toString) none w).1
  w

/-- `acceptCall()`. -/
def acceptCall (host : Host) (w : World) : World :=
  awaitCall host "callInCall" w fun inCall w =>
  if inCall = "true" then
    { w with ui := { w.ui with callIncomingConfirmModalOpen := true } }
  else awaitCall host "callAccept" w fun _ w => w

/-- `confirmAcceptCall()`. -/
def confirmAcceptCall (host : Host) (w : World) : World :=
  awaitCall host "callAccept" w fun _ w => w

/-- `loginSuccess(_)`. -/
def loginSuccess (w : World) : World :=
  let w := { w with ui := { w.ui with loginModalUsernameInvalid := false } }
  let w := { w with ui := { w.ui with loginModalPasswordInvalid := false } }
  { w with ui := { w.ui with loginModalOpen := false } }

/-- `loginFailure(reason)`. -/
def loginFailure (reason : Reason) (w : World) : World :=
  if reason.code ≠ 2 then
    showError ("Internal error while logging in " ++ reason.message) w
  else
    let w := { w with ui := { w.ui with
      loginModalUsernameInvalid := decide (w.ui.loginModalUsername = "") } }
    { w with ui := { w.ui with loginModalPasswordInvalid := true } }

/-- The two handlers `login` attaches to the `setDisplayName` future:
`r => { return { code: 0, message: r }}` and `r => r`. -/
def loginResult : PromiseState → Option Reason
  | .fulfilled r => some { code := 0, message := r }
  | .rejected r => some r
  | .pending => none

/-- `login()`. -/
def login (host : Host) (w : World) : World :=
  match call host ("setDisplayName " ++ w.ui.loginModalDisplayName) none w with
  | (w, st) =>
    match loginResult st with
    | none => w
    | some result =>
      if result.code ≠ 0 then loginFailure result w
      else
        match call host ("login " ++ w.ui.loginModalUsername ++ " " ++ w.ui.loginModalPassword
            ++ " " ++ toString w.ui.loginModalPersist) none w with
        | (w, .fulfilled _) => loginSuccess w
        | (w, .rejected reason) => loginFailure reason w
        | (w, .pending) => w

/-- `zeroPad(num, len)`. -/
def zeroPad (num : JsNumber) (len : Nat) : String :=
  padStart num.toString len "0"

/-- `updateCallTimestamp(millis)`. -/
def updateCallTimestamp (millis : JsNumber) (w : World) : World :=
  let seconds := ((millis.div 1000).floor).mod 60
  let minutes := (((millis.div 1000).div 60).floor).mod 60
  let hours := (((millis.div 1000).div 60).div 60).floor
  { w with ui := { w.ui with
    callDuration := hours.toString ++ ":" ++ zeroPad minutes 2 ++ ":" ++ zeroPad seconds 2 } }

/-! ## Counting separators -/

/-- The number of occurrences of `sep` in `s`, as the number of positions of `s`
at which `sep` starts.  Two occurrences of `", "` never overlap, so for that
separator this is also the number of its non-overlapping occurrences. -/
def countOccurrences (sep s : List Char) : Nat :=
  (s.tails.filter fun t => sep.isPrefixOf t).length

/-! ## Concrete states used to instantiate the theorems -/

/-- A page with every dialog closed, every field empty and nothing marked. -/
def blankUI : UI :=
  { loginModalOpen := false
    loginModalUsername := ""
    loginModalUsernameInvalid := false
    loginModalDisplayName := ""
    loginModalPassword := ""
    loginModalPasswordInvalid := false
    loginModalPersist := false
    callIncomingModalOpen := false
    callIncomingModalCallerName := ""
    callIncomingModalCallerNumber := ""
    callIncomingConfirmModalOpen := false
    callOutgoingModalOpen := false
    callOutgoingModalCallerName := ""
    callOutgoingModalCallerNumber := ""
    settingsModalOpen := false
    settingsInputDisplayName := ""
    settingsSelectAudioIn := []
    settingsSelectAudioOut := []
    settingsSelectAudioClip := []
    settingsInputAudioInVolume := ""
    settingsInputAudioOutVolume := ""
    settingsInputAudioClipVolume := ""
    settingsAudioInVolumeDisplay := ""
    settingsAudioOutVolumeDisplay := ""
    settingsAudioClipVolumeDisplay := ""
    callInput := ""
    notInCallHidden := false
    inCallHidden := true
    callPeerName := ""
    callPeerNumber := ""
    callDuration := ""
    callMuteBtnMuted := false
    callDeafenBtnDeafened := false
    internalErrorReason := ""
    internalErrorModalOpen := false }

/-- The blank page before any request, log line or rejection. -/
def blankWorld : World :=
  { ui := blankUI, bridge := [], console := [], unhandled := [] }

/-- A host that answers every request once, with the payload `"ok"`. -/
def okHost : Host := fun _ _ => [.onSuccess "ok"]

/-- A host that fails every request once, with code 7. -/
def failingHost : Host := fun _ _ => [.onFailure 7 "down"]

/-- The markup of a plain drop-down: no `multiple`, display size 1. -/
def dropDown : SelectMarkup :=
  { multiple := false, displaySize := 1 }

/-- A page whose three `select` elements are plain drop-downs. -/
def dropDownMarkup : Markup :=
  { selectAudioIn := dropDown, selectAudioOut := dropDown, selectAudioClip := dropDown }

/-- The answers of a host with two microphones, the second one selected, and
every volume at 250. -/
def micReply (m : String) : String :=
  if m = "audioListIn" then "Mic 1, Mic 2"
  else if m = "audioGetIn" then "1"
  else "250"

/-- The host giving the answers of `micReply`, once each. -/
def micHost : Host := fun m _ => [.onSuccess (micReply m)]

/-- A host that answers every request once, with the same payload. -/
def constantHost (payload : String) : Host := fun _ _ => [.onSuccess payload]

/-! ## The bridge shim -/

/-- A settled future ignores every further callback invocation. -/
theorem settle_foldl_of_settled (message : String) (persistent : Option Bool)
    (st : PromiseState) (hst : st ≠ .pending) (callbacks : List HostCallback) :
    callbacks.foldl (fun st cb => deliver (bridgeArg message persistent) cb st) st = st := by
  induction callbacks with
  | nil => rfl
  | cons cb rest ih =>
    have hstep : deliver (bridgeArg message persistent) cb st = st := by
      cases cb <;> cases st <;> first | exact absurd rfl hst | rfl
    simp only [List.foldl_cons, hstep, ih]

/-- On the request object of `call`, a first `onSuccess(v)` fulfils with `v`. -/
theorem settle_onSuccess_cons (message : String) (persistent : Option Bool)
    (v : String) (later : List HostCallback) :
    settle (bridgeArg message persistent) (.onSuccess v :: later) = .fulfilled v :=
  settle_foldl_of_settled message persistent (.fulfilled v) (by simp) later

/-- On the request object of `call`, a first `onFailure(c, m)` rejects with
`{code: c, message: m}`. -/
theorem settle_onFailure_cons (message : String) (persistent : Option Bool)
    (c : Int) (m : String) (later : List HostCallback) :
    settle (bridgeArg message persistent) (.onFailure c m :: later) =
      .rejected { code := c, message := m } :=
  settle_foldl_of_settled message persistent (.rejected { code := c, message := m }) (by simp) later

/-- C1: `call` hands the bridge the request object `bridgeArg message persistent`,
and for every host, command, flag and non-empty sequence of callback
invocations the host makes on that object: when the first
invocation is `onSuccess(v)` the returned future is fulfilled with exactly `v`,
when it is `onFailure(c, m)` it is rejected with exactly `{code: c, message: m}`,
and the state after the first invocation and after each later one is that same
outcome. -/
theorem call_outcome_is_first_settlement (host : Host) (message : String)
    (persistent : Option Bool) (w : World) (later : List HostCallback) :
    (call host message persistent w).1.bridge = w.bridge ++ [bridgeArg message persistent] ∧
    (∀ v : String, host message (persistent.getD false) = .onSuccess v :: later →
      (call host message persistent w).2 = .fulfilled v ∧
      ∀ n : Nat, settle (bridgeArg message persistent)
        ((HostCallback.onSuccess v :: later).take (n + 1)) = .fulfilled v) ∧
    (∀ (c : Int) (m : String), host message (persistent.getD false) = .onFailure c m :: later →
      (call host message persistent w).2 = .rejected { code := c, message := m } ∧
      ∀ n : Nat, settle (bridgeArg message persistent)
        ((HostCallback.onFailure c m :: later).take (n + 1)) =
          .rejected { code := c, message := m }) := by
  have hcall : (call host message persistent w).2 =
      settle (bridgeArg message persistent) (host message (persistent.getD false)) := rfl
  refine ⟨rfl, fun v h => ⟨?_, fun n => ?_⟩, fun c m h => ⟨?_, fun n => ?_⟩⟩
  · rw [hcall, h, settle_onSuccess_cons]
  · rw [List.take_succ_cons, settle_onSuccess_cons]
  · rw [hcall, h, settle_onFailure_cons]
  · rw [List.take_succ_cons, settle_onFailure_cons]

/-- A persistent request answered by a success, then a failure, then another
success: the future stays fulfilled with the first payload. -/
theorem call_outcome_is_first_settlement_witness :
    (call (fun _ _ => [.onSuccess "a", .onFailure 3 "late", .onSuccess "b"]) "subscribe"
        (some true) blankWorld).2 = PromiseState.fulfilled "a" ∧
      ∀ n : Nat, settle (bridgeArg "subscribe" (some true))
        (([.onSuccess "a", .onFailure 3 "late", .onSuccess "b"] : List HostCallback).take (n + 1))
          = PromiseState.fulfilled "a" :=
  (call_outcome_is_first_settlement
    (fun _ _ => [.onSuccess "a", .onFailure 3 "late", .onSuccess "b"])
    "subscribe" (some true) blankWorld [.onFailure 3 "late", .onSuccess "b"]).2.1 "a" rfl

/-- C2: one `call(m, p)` appends exactly one invocation to the host bridge and
changes nothing else; its argument is the record of the four fields `request`,
`persistent`, `onSuccess`, `onFailure`, with `request` the command `m` as given
and `persistent` the flag `p`, or `false` when the flag is omitted. -/
theorem call_invokes_bridge_once (host : Host) (m : String) (p : Bool) (w : World) :
    (call host m (some p) w).1 =
        { w with bridge := w.bridge ++
          [{ request := m, persistent := p, onSuccess := resolve,
             onFailure := fun c msg => reject { code := c, message := msg } }] } ∧
      (call host m none w).1 =
        { w with bridge := w.bridge ++
          [{ request := m, persistent := false, onSuccess := resolve,
             onFailure := fun c msg => reject { code := c, message := msg } }] } ∧
      ((call host m (some p) w).1.bridge.length = w.bridge.length + 1 ∧
        (call host m none w).1.bridge.length = w.bridge.length + 1) := by
  refine ⟨rfl, rfl, ?_, ?_⟩ <;> simp [call]

/-! ## Awaiting a request -/

/-- The future of a request is pending, fulfilled or rejected. -/
theorem call_snd_eq (host : Host) (message : String) (persistent : Option Bool) (w : World) :
    (call host message persistent w).2 =
      settle (bridgeArg message persistent) (host message (persistent.getD false)) := rfl

/-- Making a request appends it to the bridge and changes nothing else. -/
theorem call_fst_eq (host : Host) (message : String) (persistent : Option Bool) (w : World) :
    (call host message persistent w).1 =
      { w with bridge := w.bridge ++ [bridgeArg message persistent] } := rfl

/-- An awaited request that the host answers first with `onSuccess(v)` resumes
the flow with `v`. -/
theorem awaitCall_of_onSuccess (host : Host) (message : String) (w : World)
    (k : String → World → World) (v : String) (later : List HostCallback)
    (h : host message false = .onSuccess v :: later) :
    awaitCall host message w k =
      k v { w with bridge := w.bridge ++ [bridgeArg message none] } := by
  have h2 : (call host message none w).2 = .fulfilled v := by
    rw [call_snd_eq]
    show settle _ (host message false) = _
    rw [h, settle_onSuccess_cons]
  unfold awaitCall
  rw [show call host message none w = ((call host message none w).1, (call host message none w).2)
    from rfl, h2]
  rfl

/-- An awaited request that the host answers first with `onFailure(c, m)` ends
the flow with an unhandled rejection. -/
theorem awaitCall_of_onFailure (host : Host) (message : String) (w : World)
    (k : String → World → World) (c : Int) (m : String) (later : List HostCallback)
    (h : host message false = .onFailure c m :: later) :
    awaitCall host message w k =
      { w with bridge := w.bridge ++ [bridgeArg message none],
               unhandled := w.unhandled ++ [{ code := c, message := m }] } := by
  have h2 : (call host message none w).2 = .rejected { code := c, message := m } := by
    rw [call_snd_eq]
    show settle _ (host message false) = _
    rw [h, settle_onFailure_cons]
  unfold awaitCall
  rw [show call host message none w = ((call host message none w).1, (call host message none w).2)
    from rfl, h2]
  rfl

/-- The three ways an awaited request can go. -/
theorem awaitCall_cases (host : Host) (message : String) (w : World)
    (k : String → World → World) :
    (∃ v, awaitCall host message w k =
        k v { w with bridge := w.bridge ++ [bridgeArg message none] }) ∨
      (∃ r, awaitCall host message w k =
        { w with bridge := w.bridge ++ [bridgeArg message none],
                 unhandled := w.unhandled ++ [r] }) ∨
      awaitCall host message w k = { w with bridge := w.bridge ++ [bridgeArg message none] } := by
  unfold awaitCall
  rw [show call host message none w = ((call host message none w).1, (call host message none w).2)
    from rfl]
  cases (call host message none w).2 with
  | pending => exact Or.inr (Or.inr rfl)
  | fulfilled v => exact Or.inl ⟨v, rfl⟩
  | rejected r => exact Or.inr (Or.inl ⟨r, rfl⟩)

/-- `ifdebug` either runs its argument after the request or only makes the
request. -/
theorem ifdebug_cases (host : Host) (fn : World → World) (w : World) :
    ifdebug host fn w = fn { w with bridge := w.bridge ++ [bridgeArg "debug" none] } ∨
      ifdebug host fn w = { w with bridge := w.bridge ++ [bridgeArg "debug" none] } := by
  unfold ifdebug
  rw [show call host "debug" none w = ((call host "debug" none w).1, (call host "debug" none w).2)
    from rfl]
  cases (call host "debug" none w).2 with
  | pending => exact Or.inr rfl
  | fulfilled v => exact Or.inl rfl
  | rejected r => exact Or.inr rfl

/-- `ifdebug` runs its argument when the host answers `debug` with a success. -/
theorem ifdebug_of_onSuccess (host : Host) (fn : World → World) (w : World)
    (v : String) (later : List HostCallback) (h : host "debug" false = .onSuccess v :: later) :
    ifdebug host fn w = fn { w with bridge := w.bridge ++ [bridgeArg "debug" none] } := by
  have h2 : (call host "debug" none w).2 = .fulfilled v := by
    rw [call_snd_eq]
    show settle _ (host "debug" false) = _
    rw [h, settle_onSuccess_cons]
  unfold ifdebug
  rw [show call host "debug" none w = ((call host "debug" none w).1, (call host "debug" none w).2)
    from rfl, h2]
  rfl

/-- `ifdebug` swallows a failed `debug` request. -/
theorem ifdebug_of_onFailure (host : Host) (fn : World → World) (w : World)
    (c : Int) (m : String) (later : List HostCallback)
    (h : host "debug" false = .onFailure c m :: later) :
    ifdebug host fn w = { w with bridge := w.bridge ++ [bridgeArg "debug" none] } := by
  have h2 : (call host "debug" none w).2 = .rejected { code := c, message := m } := by
    rw [call_snd_eq]
    show settle _ (host "debug" false) = _
    rw [h, settle_onFailure_cons]
  unfold ifdebug
  rw [show call host "debug" none w = ((call host "debug" none w).1, (call host "debug" none w).2)
    from rfl, h2]
  rfl

/-! ## The inbound dispatcher -/

/-- `ifdebug` with `console.log` never touches the page nor raises. -/
theorem ifdebug_consoleLog_frame (host : Host) (message : String) (w : World) :
    (ifdebug host (consoleLog message) w).ui = w.ui ∧
      (ifdebug host (consoleLog message) w).unhandled = w.unhandled ∧
      (ifdebug host (consoleLog message) w).bridge = w.bridge ++ [bridgeArg "debug" none] := by
  rcases ifdebug_cases host (consoleLog message) w with h | h <;> rw [h] <;> exact ⟨rfl, rfl, rfl⟩

/-- C4: for every tag other than `require-login` and `cancel-incoming-call` and
every host, `handle` leaves the page unchanged and leaves no rejection
unhandled; its only request is `debug`; the tag is logged when the host
answers `debug` with a success (any payload) and nothing is logged when it
answers with a failure (any code and message). -/
theorem handle_unrecognized_tag (host : Host) (message : String) (w : World)
    (h1 : message ≠ "require-login") (h2 : message ≠ "cancel-incoming-call") :
    (handle host message w).ui = w.ui ∧
      (handle host message w).unhandled = w.unhandled ∧
      (handle host message w).bridge = w.bridge ++ [bridgeArg "debug" none] ∧
      (∀ v later, host "debug" false = .onSuccess v :: later →
        (handle host message w).console = w.console ++ [message]) ∧
      (∀ c m later, host "debug" false = .onFailure c m :: later →
        (handle host message w).console = w.console) := by
  have hh : handle host message w = ifdebug host (consoleLog message) w := by
    simp [handle, h1, h2]
  rw [hh]
  obtain ⟨hui, hun, hbr⟩ := ifdebug_consoleLog_frame host message w
  refine ⟨hui, hun, hbr, fun v later h => ?_, fun c m later h => ?_⟩
  · rw [ifdebug_of_onSuccess host _ w v later h]; rfl
  · rw [ifdebug_of_onFailure host _ w c m later h]

/-- The tag `"ping"` on the blank page with a host that fails every request. -/
theorem handle_unrecognized_tag_witness :
    (handle failingHost "ping" blankWorld).ui = blankUI ∧
      (handle failingHost "ping" blankWorld).unhandled = [] ∧
      (handle failingHost "ping" blankWorld).console = [] :=
  have h := handle_unrecognized_tag failingHost "ping" blankWorld (by decide) (by decide)
  ⟨h.1, h.2.1, h.2.2.2.2 7 "down" [] rfl⟩

/-- Whatever the host answers, `promptLogin` changes nothing on the page but
the username field, the display-name field and the open state of the login
modal. -/
theorem promptLogin_frame (host : Host) (w : World) :
    { (promptLogin host w).ui with
        loginModalUsername := w.ui.loginModalUsername
        loginModalDisplayName := w.ui.loginModalDisplayName
        loginModalOpen := w.ui.loginModalOpen } = w.ui := by
  unfold promptLogin
  rcases awaitCall_cases host "getUsername" w _ with ⟨v, h⟩ | ⟨r, h⟩ | h
  · rw [h]
    rcases awaitCall_cases host "getDisplayName" _ _ with ⟨v2, h'⟩ | ⟨r, h'⟩ | h' <;>
      (simp only [] at h' ⊢; rw [h'])
  · rw [h]
  · rw [h]

/-- C3: `handle("require-login")` is the login-prompt flow (after the debug
check): when the host answers `getUsername` with `u` and `getDisplayName` with
`d`, the page afterwards is the page before with the username field set to
`u`, the display-name field set to `d` and the login modal open, and whatever
the host answers nothing but these three properties changes, so the
incoming-call dialog keeps its state.  `handle("cancel-incoming-call")` gives
the page before with the incoming-call dialog closed and nothing else changed,
makes no request but `debug` and leaves no rejection unhandled. -/
theorem handle_recognized_tags (host : Host) (w : World) :
    handle host "require-login" w =
        promptLogin host (ifdebug host (consoleLog "require-login") w) ∧
      (∀ u d l1 l2, host "getUsername" false = .onSuccess u :: l1 →
        host "getDisplayName" false = .onSuccess d :: l2 →
        (handle host "require-login" w).ui =
          { w.ui with loginModalUsername := u, loginModalDisplayName := d,
                      loginModalOpen := true }) ∧
      { (handle host "require-login" w).ui with
          loginModalUsername := w.ui.loginModalUsername
          loginModalDisplayName := w.ui.loginModalDisplayName
          loginModalOpen := w.ui.loginModalOpen } = w.ui ∧
      (handle host "require-login" w).ui.callIncomingModalOpen = w.ui.callIncomingModalOpen ∧
      (handle host "cancel-incoming-call" w).ui = { w.ui with callIncomingModalOpen := false } ∧
      (handle host "cancel-incoming-call" w).unhandled = w.unhandled ∧
      (handle host "cancel-incoming-call" w).bridge = w.bridge ++ [bridgeArg "debug" none] := by
  have hlogin : handle host "require-login" w =
      promptLogin host (ifdebug host (consoleLog "require-login") w) := by
    simp [handle]
  have hcancel : handle host "cancel-incoming-call" w =
      cancelCallIncoming (ifdebug host (consoleLog "cancel-incoming-call") w) := by
    simp [handle]
  obtain ⟨hui, hun, hbr⟩ := ifdebug_consoleLog_frame host "require-login" w
  obtain ⟨hui', hun', hbr'⟩ := ifdebug_consoleLog_frame host "cancel-incoming-call" w
  have hframe := promptLogin_frame host (ifdebug host (consoleLog "require-login") w)
  rw [hui] at hframe
  refine ⟨hlogin, fun u d l1 l2 hu hd => ?_, ?_, ?_, ?_, ?_, ?_⟩
  · rw [hlogin]
    unfold promptLogin
    rw [awaitCall_of_onSuccess host "getUsername" _ _ u l1 hu]
    simp only []
    rw [awaitCall_of_onSuccess host "getDisplayName" _ _ d l2 hd]
    simp only [hui]
  · rw [hlogin]; exact hframe
  · rw [hlogin]
    have := congrArg UI.callIncomingModalOpen hframe
    exact this
  · rw [hcancel]; simp only [cancelCallIncoming, hui']
  · rw [hcancel]; exact hun'
  · rw [hcancel]; exact hbr'

/-- The two recognized tags on the blank page with a host that answers `"ok"`. -/
theorem handle_recognized_tags_witness :
    (handle okHost "require-login" blankWorld).ui =
      { blankUI with loginModalUsername := "ok", loginModalDisplayName := "ok",
                     loginModalOpen := true } :=
  (handle_recognized_tags okHost blankWorld).2.1 "ok" "ok" [] [] rfl rfl

/-! ## Login -/

/-- C6: for every failure reason `{code, message}`, `loginFailure` changes only
the page.  With code 2 it marks the password field invalid, marks the username
field invalid exactly when that field's value is empty, and changes nothing
else, so the error modal is not opened.  With any other code it opens the
internal-error modal with the reason text `Internal error while logging in `
followed by the message, which therefore occurs in the text, and changes
nothing else, so the invalid marks of both fields stay as they were. -/
theorem loginFailure_effect (reason : Reason) (w : World) :
    (reason.code = 2 →
        loginFailure reason w =
          { w with ui := { w.ui with
              loginModalUsernameInvalid := decide (w.ui.loginModalUsername = "")
              loginModalPasswordInvalid := true } } ∧
        (loginFailure reason w).ui.loginModalPasswordInvalid = true ∧
        ((loginFailure reason w).ui.loginModalUsernameInvalid = true ↔
          w.ui.loginModalUsername = "") ∧
        (loginFailure reason w).ui.internalErrorModalOpen = w.ui.internalErrorModalOpen ∧
        (loginFailure reason w).ui.internalErrorReason = w.ui.internalErrorReason) ∧
      (reason.code ≠ 2 →
        loginFailure reason w =
          { w with ui := { w.ui with
              internalErrorReason := "Internal error while logging in " ++ reason.message
              internalErrorModalOpen := true } } ∧
        (loginFailure reason w).ui.internalErrorModalOpen = true ∧
        reason.message.data <:+: (loginFailure reason w).ui.internalErrorReason.data ∧
        (loginFailure reason w).ui.loginModalUsernameInvalid = w.ui.loginModalUsernameInvalid ∧
        (loginFailure reason w).ui.loginModalPasswordInvalid = w.ui.loginModalPasswordInvalid) := by
  constructor
  · intro h
    have e : loginFailure reason w =
        { w with ui := { w.ui with
            loginModalUsernameInvalid := decide (w.ui.loginModalUsername = "")
            loginModalPasswordInvalid := true } } := by
      simp [loginFailure, h]
    rw [e]
    exact ⟨rfl, rfl, by simp, rfl, rfl⟩
  · intro h
    have e : loginFailure reason w =
        { w with ui := { w.ui with
            internalErrorReason := "Internal error while logging in " ++ reason.message
            internalErrorModalOpen := true } } := by
      simp [loginFailure, h, showError]
    rw [e]
    refine ⟨rfl, rfl, ?_, rfl, rfl⟩
    show reason.message.data <:+: ("Internal error while logging in " ++ reason.message).data
    rw [String.data_append]
    exact (List.suffix_append _ _).isInfix

/-- Wrong credentials with an empty username field, and an internal failure. -/
theorem loginFailure_effect_witness :
    ((loginFailure { code := 2, message := "bad credentials" } blankWorld).ui.loginModalPasswordInvalid
        = true ∧
      (loginFailure { code := 2, message := "bad credentials" } blankWorld).ui.loginModalUsernameInvalid
        = true) ∧
      (loginFailure { code := 5, message := "timeout" } blankWorld).ui.internalErrorReason
        = "Internal error while logging in timeout" :=
  have h2 := (loginFailure_effect { code := 2, message := "bad credentials" } blankWorld).1 rfl
  have h5 := (loginFailure_effect { code := 5, message := "timeout" } blankWorld).2 (by decide)
  ⟨⟨h2.2.1, h2.2.2.1.mpr rfl⟩, by rw [h5.1]; rfl⟩

/-- `loginFailure` makes no request. -/
theorem loginFailure_bridge (reason : Reason) (w : World) :
    (loginFailure reason w).bridge = w.bridge := by
  unfold loginFailure showError
  split <;> rfl

/-- The `login` request and its two handlers add one request to the bridge. -/
theorem login_second_bridge (host : Host) (m : String) (w0 : World) :
    (match call host m none w0 with
      | (w, .fulfilled _) => loginSuccess w
      | (w, .rejected reason) => loginFailure reason w
      | (w, .pending) => w).bridge = w0.bridge ++ [bridgeArg m none] := by
  rw [show call host m none w0 = ((call host m none w0).1, (call host m none w0).2) from rfl]
  cases (call host m none w0).2 with
  | pending => rfl
  | fulfilled v => rfl
  | rejected r => simp only [loginFailure_bridge]; rfl

/-- What `login` does once the `setDisplayName` request has settled into the
record `result`. -/
theorem login_of_result (host : Host) (w : World) (result : Reason)
    (h : loginResult (call host ("setDisplayName " ++ w.ui.loginModalDisplayName) none w).2
      = some result) :
    (result.code ≠ 0 →
      login host w = loginFailure result
        { w with bridge := w.bridge ++
          [bridgeArg ("setDisplayName " ++ w.ui.loginModalDisplayName) none] }) ∧
    (result.code = 0 →
      (login host w).bridge = w.bridge ++
        [bridgeArg ("setDisplayName " ++ w.ui.loginModalDisplayName) none,
         bridgeArg ("login " ++ w.ui.loginModalUsername ++ " " ++ w.ui.loginModalPassword
            ++ " " ++ toString w.ui.loginModalPersist) none]) := by
  constructor
  · intro hc
    unfold login
    simp only [h, hc, ne_eq, not_false_eq_true, if_true]
    rfl
  · intro hc
    unfold login
    simp only [h, hc, ne_eq, not_true_eq_false, if_false]
    rw [login_second_bridge]
    simp [call]

/-- C8: in `login`, let the host's first callback invocation on the
`setDisplayName` request be given.  If it is a success, or a failure with code
0, the requests `login` makes are `setDisplayName …` followed by
`login <user> <pass> <persist>`.  If it is a failure with a code other than 0,
`login` is `loginFailure` applied to that reason `{code, message}` and the only
request it makes is `setDisplayName …`: no `login` command is sent. -/
theorem login_sends_login_iff_code_zero (host : Host) (w : World) (later : List HostCallback) :
    (∀ v, host ("setDisplayName " ++ w.ui.loginModalDisplayName) false = .onSuccess v :: later →
      (login host w).bridge = w.bridge ++
        [bridgeArg ("setDisplayName " ++ w.ui.loginModalDisplayName) none,
         bridgeArg ("login " ++ w.ui.loginModalUsername ++ " " ++ w.ui.loginModalPassword
            ++ " " ++ toString w.ui.loginModalPersist) none]) ∧
    (∀ m, host ("setDisplayName " ++ w.ui.loginModalDisplayName) false
        = .onFailure 0 m :: later →
      (login host w).bridge = w.bridge ++
        [bridgeArg ("setDisplayName " ++ w.ui.loginModalDisplayName) none,
         bridgeArg ("login " ++ w.ui.loginModalUsername ++ " " ++ w.ui.loginModalPassword
            ++ " " ++ toString w.ui.loginModalPersist) none]) ∧
    (∀ c m, c ≠ 0 →
      host ("setDisplayName " ++ w.ui.loginModalDisplayName) false = .onFailure c m :: later →
      login host w = loginFailure { code := c, message := m }
        { w with bridge := w.bridge ++
          [bridgeArg ("setDisplayName " ++ w.ui.loginModalDisplayName) none] } ∧
      (login host w).bridge = w.bridge ++
        [bridgeArg ("setDisplayName " ++ w.ui.loginModalDisplayName) none]) := by
  refine ⟨fun v h => ?_, fun m h => ?_, fun c m hc h => ?_⟩
  · have hr : loginResult (call host ("setDisplayName " ++ w.ui.loginModalDisplayName) none w).2
        = some { code := 0, message := v } := by
      rw [call_snd_eq]
      show loginResult (settle _ (host _ false)) = _
      rw [h, settle_onSuccess_cons]; rfl
    exact (login_of_result host w _ hr).2 rfl
  · have hr : loginResult (call host ("setDisplayName " ++ w.ui.loginModalDisplayName) none w).2
        = some { code := 0, message := m } := by
      rw [call_snd_eq]
      show loginResult (settle _ (host _ false)) = _
      rw [h, settle_onFailure_cons]; rfl
    exact (login_of_result host w _ hr).2 rfl
  · have hr : loginResult (call host ("setDisplayName " ++ w.ui.loginModalDisplayName) none w).2
        = some { code := c, message := m } := by
      rw [call_snd_eq]
      show loginResult (settle _ (host _ false)) = _
      rw [h, settle_onFailure_cons]; rfl
    have h1 := (login_of_result host w _ hr).1 hc
    exact ⟨h1, by rw [h1, loginFailure_bridge]⟩

/-- On the blank page: a host that fails every request with code 7 gets no
`login` command. -/
theorem login_sends_login_iff_code_zero_witness :
    (login failingHost blankWorld).bridge.map (fun arg => arg.request) = ["setDisplayName "] :=
  have h := (login_sends_login_iff_code_zero failingHost blankWorld []).2.2 7 "down"
    (by decide) rfl
  by rw [h.2]; rfl

/-! ## Accepting a call -/

/-- Awaiting `callAccept` and doing nothing with the answer adds that one
request to the bridge and leaves the page alone. -/
theorem awaitCall_callAccept (host : Host) (w : World) :
    (awaitCall host "callAccept" w fun _ w => w).bridge = w.bridge ++ [bridgeArg "callAccept" none] ∧
      (awaitCall host "callAccept" w fun _ w => w).ui = w.ui := by
  rcases awaitCall_cases host "callAccept" w (fun _ w => w) with ⟨v, h⟩ | ⟨r, h⟩ | h <;>
    rw [h] <;> exact ⟨rfl, rfl⟩

/-- C10: let the host's first callback invocation on the `callInCall` request be
given.  If it is a success with payload `r`: when `r` is the string `true`,
`acceptCall` opens the incoming-call confirmation modal, changes nothing else
and makes no request but `callInCall`; when `r` is anything else it makes the
requests `callInCall` and `callAccept` and leaves the page alone; so a
`callAccept` request is among the requests made exactly when `r` is not
`true`.  If it is a failure, the only request made is `callInCall`. -/
theorem acceptCall_asks_before_accepting (host : Host) (w : World) (later : List HostCallback) :
    (∀ r, host "callInCall" false = .onSuccess r :: later →
      (r = "true" →
        acceptCall host w =
          { w with bridge := w.bridge ++ [bridgeArg "callInCall" none],
                   ui := { w.ui with callIncomingConfirmModalOpen := true } }) ∧
      (r ≠ "true" →
        (acceptCall host w).bridge =
          w.bridge ++ [bridgeArg "callInCall" none, bridgeArg "callAccept" none] ∧
        (acceptCall host w).ui = w.ui) ∧
      ((∃ arg ∈ (acceptCall host w).bridge.drop w.bridge.length, arg.request = "callAccept")
        ↔ r ≠ "true")) ∧
    (∀ c m, host "callInCall" false = .onFailure c m :: later →
      (acceptCall host w).bridge = w.bridge ++ [bridgeArg "callInCall" none] ∧
      (acceptCall host w).ui = w.ui) := by
  constructor
  · intro r h
    have e := awaitCall_of_onSuccess host "callInCall" w
      (fun inCall w =>
        if inCall = "true" then
          { w with ui := { w.ui with callIncomingConfirmModalOpen := true } }
        else awaitCall host "callAccept" w fun _ w => w) r later h
    have e' : acceptCall host w = _ := e
    have hyes : r = "true" →
        acceptCall host w =
          { w with bridge := w.bridge ++ [bridgeArg "callInCall" none],
                   ui := { w.ui with callIncomingConfirmModalOpen := true } } := by
      intro hr
      rw [e']
      simp only [hr, if_true]
    have hno : r ≠ "true" →
        (acceptCall host w).bridge =
          w.bridge ++ [bridgeArg "callInCall" none, bridgeArg "callAccept" none] ∧
        (acceptCall host w).ui = w.ui := by
      intro hr
      rw [e']
      simp only [hr, if_false]
      obtain ⟨h1, h2⟩ := awaitCall_callAccept host
        { w with bridge := w.bridge ++ [bridgeArg "callInCall" none] }
      exact ⟨by rw [h1]; simp, h2⟩
    refine ⟨hyes, hno, ?_⟩
    by_cases hr : r = "true"
    · rw [hyes hr]
      simp [hr, bridgeArg]
    · rw [(hno hr).1]
      simp [hr, bridgeArg]
  · intro c m h
    have e : acceptCall host w = _ := awaitCall_of_onFailure host "callInCall" w _ c m later h
    rw [e]
    exact ⟨rfl, rfl⟩

/-- On the blank page with a host that answers `"ok"`: `callAccept` is sent. -/
theorem acceptCall_asks_before_accepting_witness :
    (acceptCall okHost blankWorld).bridge.map (fun arg => arg.request)
      = ["callInCall", "callAccept"] :=
  have h := ((acceptCall_asks_before_accepting okHost blankWorld []).1 "ok" rfl).2.1 (by decide)
  by rw [h.1]; rfl

/-! ## Splitting a device list -/

/-- The text before the first occurrence, the separator and the text after it
make up the string, and the separator does not occur earlier. -/
theorem findSep_some (sep : List Char) :
    ∀ (s before after : List Char), findSep sep s = some (before, after) →
      s = before ++ sep ++ after ∧
        ∀ b1 b2, before = b1 ++ b2 → b2 ≠ [] → ¬ sep <+: b2 ++ sep ++ after := by
  intro s
  induction s with
  | nil => intro before after h; simp [findSep] at h
  | cons c cs ih =>
    intro before after h
    unfold findSep at h
    by_cases hp : sep.isPrefixOf (c :: cs) = true
    · rw [if_pos hp] at h
      simp only [Option.some.injEq, Prod.mk.injEq] at h
      obtain ⟨hb, ha⟩ := h
      subst hb
      subst ha
      have hpre : sep <+: c :: cs := List.isPrefixOf_iff_prefix.mp hp
      refine ⟨?_, ?_⟩
      · obtain ⟨t, ht⟩ := hpre
        rw [← ht]
        simp
      · intro b1 b2 hb hb2
        have : b2 = [] := by
          have := congrArg List.length hb
          simp at this
          exact List.eq_nil_of_length_eq_zero (by omega)
        exact absurd this hb2
    · rw [if_neg hp] at h
      cases hrec : findSep sep cs with
      | none => rw [hrec] at h; simp at h
      | some p =>
        obtain ⟨b', a'⟩ := p
        rw [hrec] at h
        simp only [Option.map_some', Option.some.injEq, Prod.mk.injEq] at h
        obtain ⟨hb, ha⟩ := h
        subst hb
        subst ha
        obtain ⟨h1, h2⟩ := ih b' a' hrec
        refine ⟨by rw [h1]; simp, ?_⟩
        intro b1 b2 hb hb2
        cases b1 with
        | nil =>
          simp only [List.nil_append] at hb
          rw [← hb]
          intro hcontra
          apply hp
          apply List.isPrefixOf_iff_prefix.mpr
          rw [h1]
          simpa using hcontra
        | cons x b1' =>
          simp only [List.cons_append, List.cons.injEq] at hb
          exact h2 b1' b2 hb.2 hb2

/-- When no occurrence is found, the separator is a prefix of no suffix. -/
theorem findSep_none (sep : List Char) (hsep : sep ≠ []) :
    ∀ s : List Char, findSep sep s = none → ∀ t, t <:+ s → ¬ sep <+: t := by
  intro s
  induction s with
  | nil =>
    intro _ t ht hp
    have : t = [] := List.suffix_nil.mp ht
    subst this
    exact hsep (List.prefix_nil.mp hp)
  | cons c cs ih =>
    intro h t ht
    unfold findSep at h
    by_cases hp : sep.isPrefixOf (c :: cs) = true
    · rw [if_pos hp] at h; simp at h
    · rw [if_neg hp] at h
      have hrec : findSep sep cs = none := by
        cases hrec : findSep sep cs with
        | none => rfl
        | some p => rw [hrec] at h; simp at h
      rcases List.suffix_cons_iff.mp ht with heq | hsuf
      · rw [heq]
        intro hcontra
        exact hp (List.isPrefixOf_iff_prefix.mpr hcontra)
      · exact ih hrec t hsuf

/-- Joining a non-empty list of segments puts the separator after the first. -/
theorem intercalate_cons_of_ne_nil (sep b : List Char) (xs : List (List Char)) (h : xs ≠ []) :
    sep.intercalate (b :: xs) = b ++ sep ++ sep.intercalate xs := by
  cases xs with
  | nil => exact absurd rfl h
  | cons x xs => simp [List.intercalate, List.intersperse]

/-- The loop of `split` never returns the empty list. -/
theorem splitFuel_ne_nil (sep : List Char) (fuel : Nat) (s : List Char) :
    splitFuel sep fuel s ≠ [] := by
  cases fuel with
  | zero => simp [splitFuel]
  | succ n =>
    unfold splitFuel
    split <;> simp

/-- With fuel for every character, the segments of the loop of `split` joined by
the separator give the string back, and no segment contains the separator. -/
theorem splitFuel_spec (sep : List Char) (hsep : sep ≠ []) :
    ∀ (fuel : Nat) (s : List Char), s.length ≤ fuel →
      sep.intercalate (splitFuel sep fuel s) = s ∧
        ∀ seg ∈ splitFuel sep fuel s, ¬ sep <:+: seg := by
  have hnone : ∀ s : List Char, findSep sep s = none → ¬ sep <:+: s := by
    intro s h hin
    obtain ⟨x, y, hxy⟩ := hin
    refine findSep_none sep hsep s h (sep ++ y) ?_ (List.prefix_append _ _)
    exact ⟨x, by rw [← hxy]; simp⟩
  intro fuel
  induction fuel with
  | zero =>
    intro s hs
    have : s = [] := List.eq_nil_of_length_eq_zero (by omega)
    subst this
    refine ⟨by simp [splitFuel, List.intercalate], ?_⟩
    intro seg hseg
    simp only [splitFuel, List.mem_singleton] at hseg
    subst hseg
    exact hnone [] rfl
  | succ n ih =>
    intro s hs
    unfold splitFuel
    cases hf : findSep sep s with
    | none =>
      refine ⟨by simp [List.intercalate], ?_⟩
      intro seg hseg
      simp only [List.mem_singleton] at hseg
      subst hseg
      exact hnone _ hf
    | some p =>
      obtain ⟨b, a⟩ := p
      obtain ⟨h1, h2⟩ := findSep_some sep s b a hf
      have hseplen : 0 < sep.length := List.length_pos.mpr hsep
      have hlen : a.length ≤ n := by
        have := congrArg List.length h1
        simp at this
        omega
      obtain ⟨ih1, ih2⟩ := ih a hlen
      refine ⟨?_, ?_⟩
      · show sep.intercalate (b :: splitFuel sep n a) = s
        rw [intercalate_cons_of_ne_nil _ _ _ (splitFuel_ne_nil sep n a), ih1, h1]
      · intro seg hseg
        simp only [List.mem_cons] at hseg
        rcases hseg with heq | hmem
        · subst heq
          rintro ⟨x, y, hxy⟩
          refine h2 x (sep ++ y) (by rw [← hxy]; simp) ?_ ?_
          · intro hnil
            exact hsep (List.append_eq_nil.mp hnil).1
          · exact ⟨y ++ sep ++ a, by simp⟩
        · exact ih2 seg hmem

/-- Occurrences are counted position by position. -/
theorem countOccurrences_cons (sep : List Char) (c : Char) (cs : List Char) :
    countOccurrences sep (c :: cs) =
      (if sep.isPrefixOf (c :: cs) = true then 1 else 0) + countOccurrences sep cs := by
  unfold countOccurrences
  rw [List.tails_cons, List.filter_cons]
  split <;> simp [Nat.add_comm]

/-- When `", "` is found, one occurrence is cut and the rest are after it. -/
theorem countOccurrences_of_findSep_some :
    ∀ (s before after : List Char), findSep [',', ' '] s = some (before, after) →
      countOccurrences [',', ' '] s = countOccurrences [',', ' '] after + 1 := by
  intro s
  induction s with
  | nil => intro before after h; simp [findSep] at h
  | cons c cs ih =>
    intro before after h
    rw [countOccurrences_cons]
    unfold findSep at h
    by_cases hp : List.isPrefixOf [',', ' '] (c :: cs) = true
    · rw [if_pos hp] at h
      rw [if_pos hp]
      simp only [Option.some.injEq, Prod.mk.injEq] at h
      obtain ⟨-, ha⟩ := h
      obtain ⟨t, ht⟩ := List.isPrefixOf_iff_prefix.mp hp
      simp only [List.cons_append, List.nil_append, List.cons.injEq] at ht
      obtain ⟨hc, hcs⟩ := ht
      subst hc
      subst hcs
      simp only [List.length_cons, List.length_nil, List.drop_succ_cons, List.drop_zero] at ha
      subst ha
      rw [countOccurrences_cons]
      have hblank : ∀ x, List.isPrefixOf [',', ' '] (' ' :: x) = false := by
        intro x
        simp [List.isPrefixOf]
      rw [hblank]
      simp
      omega
    · rw [if_neg hp] at h
      rw [if_neg hp]
      cases hrec : findSep [',', ' '] cs with
      | none => rw [hrec] at h; simp at h
      | some p =>
        obtain ⟨b', a'⟩ := p
        rw [hrec] at h
        simp only [Option.map_some', Option.some.injEq, Prod.mk.injEq] at h
        obtain ⟨-, ha⟩ := h
        subst ha
        rw [ih b' a' hrec]
        omega

/-- When `", "` is not found, it does not occur. -/
theorem countOccurrences_of_findSep_none :
    ∀ s : List Char, findSep [',', ' '] s = none → countOccurrences [',', ' '] s = 0 := by
  intro s
  induction s with
  | nil => intro _; rfl
  | cons c cs ih =>
    intro h
    rw [countOccurrences_cons]
    unfold findSep at h
    by_cases hp : List.isPrefixOf [',', ' '] (c :: cs) = true
    · rw [if_pos hp] at h; simp at h
    · rw [if_neg hp] at h
      rw [if_neg hp]
      cases hrec : findSep [',', ' '] cs with
      | none => rw [ih hrec]
      | some p => rw [hrec] at h; simp at h

/-- With fuel for every character, the loop of `split` on `", "` returns one
segment more than there are occurrences of `", "`. -/
theorem splitFuel_length :
    ∀ (fuel : Nat) (s : List Char), s.length ≤ fuel →
      (splitFuel [',', ' '] fuel s).length = countOccurrences [',', ' '] s + 1 := by
  intro fuel
  induction fuel with
  | zero =>
    intro s hs
    have : s = [] := List.eq_nil_of_length_eq_zero (by omega)
    subst this
    rfl
  | succ n ih =>
    intro s hs
    unfold splitFuel
    cases hf : findSep [',', ' '] s with
    | none => simp [countOccurrences_of_findSep_none s hf]
    | some p =>
      obtain ⟨b, a⟩ := p
      obtain ⟨h1, -⟩ := findSep_some _ s b a hf
      have hlen : a.length ≤ n := by
        have := congrArg List.length h1
        simp at this
        omega
      simp only [List.length_cons]
      rw [ih a hlen, countOccurrences_of_findSep_some s b a hf]

/-- The three facts about `split` on `", "`: one segment more than occurrences,
the segments joined by `", "` give the string back, no segment contains `", "`. -/
theorem split_comma_space (s : String) :
    (split s ", ").length = countOccurrences ", ".data s.data + 1 ∧
      ", ".data.intercalate ((split s ", ").map String.data) = s.data ∧
      ∀ seg ∈ split s ", ", ¬ ", ".data <:+: seg.data := by
  have hsplit : split s ", " = (splitFuel [',', ' '] s.data.length s.data).map String.mk := by
    unfold split
    rw [if_neg (by decide)]
  obtain ⟨h1, h2⟩ := splitFuel_spec [',', ' '] (by decide) s.data.length s.data (Nat.le_refl _)
  refine ⟨?_, ?_, ?_⟩
  · rw [hsplit, List.length_map]
    exact splitFuel_length s.data.length s.data (Nat.le_refl _)
  · rw [hsplit, List.map_map]
    have : (String.data ∘ String.mk) = id := by funext l; rfl
    rw [this, List.map_id]
    exact h1
  · intro seg hseg
    rw [hsplit] at hseg
    obtain ⟨l, hl, rfl⟩ := List.mem_map.mp hseg
    exact h2 l hl

/-! ## Rounding -/

/-- With fuel for the whole number, `halvings` is the binary logarithm. -/
theorem halvings_eq_log2 : ∀ fuel n, n ≤ fuel → halvings fuel n = Nat.log2 n := by
  intro fuel
  induction fuel with
  | zero =>
    intro n h
    have : n = 0 := by omega
    subst this
    simp [halvings, Nat.log2]
  | succ f ih =>
    intro n h
    unfold halvings
    rw [Nat.log2]
    by_cases h2 : 2 ≤ n
    · rw [if_pos h2, if_pos h2, ih (n / 2) (by omega)]
    · rw [if_neg h2, if_neg h2]

/-- `floorLog2` is the binary logarithm of the library. -/
theorem floorLog2_eq (n : Nat) : floorLog2 n = Nat.log2 n :=
  halvings_eq_log2 n n (Nat.le_refl n)

/-- The leading binary digit is within the number. -/
theorem two_pow_floorLog2_le (n : Nat) (h : n ≠ 0) : 2 ^ floorLog2 n ≤ n := by
  rw [floorLog2_eq]
  exact Nat.log2_self_le h

/-- A number below `2 ^ k` has its leading binary digit below position `k`. -/
theorem floorLog2_lt (n k : Nat) (h : n < 2 ^ k) (hk : 0 < k) : floorLog2 n < k := by
  rw [floorLog2_eq]
  by_cases h0 : n = 0
  · subst h0
    simpa [Nat.log2_zero] using hk
  · exact (Nat.log2_lt h0).mpr h

/-- What `roundRatio` computes, with its spacing `2 ^ s` named. -/
theorem roundRatio_eq (t d : Nat) :
    roundRatio t d =
      if d * 2 ^ (floorLog2 (t / d) - 52) < 2 * (t % (d * 2 ^ (floorLog2 (t / d) - 52))) ∨
          (2 * (t % (d * 2 ^ (floorLog2 (t / d) - 52))) = d * 2 ^ (floorLog2 (t / d) - 52) ∧
            t / (d * 2 ^ (floorLog2 (t / d) - 52)) % 2 = 1) then
        (t / (d * 2 ^ (floorLog2 (t / d) - 52)) + 1) * 2 ^ (floorLog2 (t / d) - 52)
      else t / (d * 2 ^ (floorLog2 (t / d) - 52)) * 2 ^ (floorLog2 (t / d) - 52) := rfl

/-- Rounding does not go below a number of the same spacing that is at most
the ratio. -/
theorem roundRatio_lower (t d c : Nat) (hd : 0 < d) (hc : c * d ≤ t)
    (hdvd : 2 ^ (floorLog2 (t / d) - 52) ∣ c) : c ≤ roundRatio t d := by
  obtain ⟨c', rfl⟩ := hdvd
  have hP : 0 < 2 ^ (floorLog2 (t / d) - 52) := Nat.pow_pos (by decide)
  have hm : c' ≤ t / (d * 2 ^ (floorLog2 (t / d) - 52)) := by
    apply (Nat.le_div_iff_mul_le (Nat.mul_pos hd hP)).mpr
    calc c' * (d * 2 ^ (floorLog2 (t / d) - 52))
        = 2 ^ (floorLog2 (t / d) - 52) * c' * d := by ring
      _ ≤ t := hc
  rw [roundRatio_eq]
  split
  · calc 2 ^ (floorLog2 (t / d) - 52) * c'
        = c' * 2 ^ (floorLog2 (t / d) - 52) := Nat.mul_comm _ _
      _ ≤ (t / (d * 2 ^ (floorLog2 (t / d) - 52)) + 1) * 2 ^ (floorLog2 (t / d) - 52) :=
          Nat.mul_le_mul_right _ (by omega)
  · calc 2 ^ (floorLog2 (t / d) - 52) * c'
        = c' * 2 ^ (floorLog2 (t / d) - 52) := Nat.mul_comm _ _
      _ ≤ t / (d * 2 ^ (floorLog2 (t / d) - 52)) * 2 ^ (floorLog2 (t / d) - 52) :=
          Nat.mul_le_mul_right _ hm

/-- Rounding is exact on a ratio that is a number of its own spacing. -/
theorem roundRatio_exact (c d : Nat) (hd : 0 < d)
    (hdvd : 2 ^ (floorLog2 c - 52) ∣ c) : roundRatio (c * d) d = c := by
  have hq : c * d / d = c := Nat.mul_div_cancel c hd
  rw [roundRatio_eq, hq]
  generalize floorLog2 c - 52 = s at *
  obtain ⟨c', hc'⟩ := hdvd
  have hP : 0 < 2 ^ s := Nat.pow_pos (by decide)
  have hD : 0 < d * 2 ^ s := Nat.mul_pos hd hP
  have ht : c * d = c' * (d * 2 ^ s) := by
    rw [hc']; ring
  rw [ht, Nat.mul_mod_left, Nat.mul_div_cancel c' hD, if_neg (by omega), hc']
  ring

/-- Rounding goes up by at most half the spacing: one part in `2 ^ 53` of the
ratio, or half a unit below `2 ^ 52` units. -/
theorem roundRatio_upper (t d : Nat) (hd : 0 < d) :
    2 ^ 53 * (roundRatio t d * d) ≤ (2 ^ 53 + 1) * t + 2 ^ 52 * d := by
  have hP : 0 < 2 ^ (floorLog2 (t / d) - 52) := Nat.pow_pos (by decide)
  have hD : 0 < d * 2 ^ (floorLog2 (t / d) - 52) := Nat.mul_pos hd hP
  -- the spacing is at most one part in 2 ^ 52 of the ratio, or one unit
  have hspacing : 2 ^ 52 * (d * 2 ^ (floorLog2 (t / d) - 52)) ≤ t + 2 ^ 52 * d := by
    by_cases hL : floorLog2 (t / d) ≤ 52
    · have : floorLog2 (t / d) - 52 = 0 := by omega
      rw [this]
      simp
    · have hne : t / d ≠ 0 := by
        intro h0
        rw [h0] at hL
        exact hL (by decide)
      have h1 : 2 ^ floorLog2 (t / d) ≤ t / d := two_pow_floorLog2_le _ hne
      have h2 : 2 ^ 52 * 2 ^ (floorLog2 (t / d) - 52) = 2 ^ floorLog2 (t / d) := by
        rw [← Nat.pow_add]
        congr 1
        omega
      have h3 : t / d * d ≤ t := Nat.div_mul_le_self t d
      calc 2 ^ 52 * (d * 2 ^ (floorLog2 (t / d) - 52))
          = 2 ^ 52 * 2 ^ (floorLog2 (t / d) - 52) * d := by ring
        _ = 2 ^ floorLog2 (t / d) * d := by rw [h2]
        _ ≤ t / d * d := Nat.mul_le_mul_right _ h1
        _ ≤ t := h3
        _ ≤ t + 2 ^ 52 * d := Nat.le_add_right _ _
  have hdm := Nat.div_add_mod t (d * 2 ^ (floorLog2 (t / d) - 52))
  have hr := Nat.mod_lt t hD
  have eup : ∀ m : Nat, (m + 1) * 2 ^ (floorLog2 (t / d) - 52) * d =
      d * 2 ^ (floorLog2 (t / d) - 52) * m + d * 2 ^ (floorLog2 (t / d) - 52) := by
    intro m; ring
  have edn : ∀ m : Nat, m * 2 ^ (floorLog2 (t / d) - 52) * d =
      d * 2 ^ (floorLog2 (t / d) - 52) * m := by
    intro m; ring
  rw [roundRatio_eq]
  split
  · rename_i hup
    rw [eup]
    generalize d * 2 ^ (floorLog2 (t / d) - 52) = D at *
    generalize t % D = r at *
    generalize D * (t / D) = X at *
    omega
  · rw [edn]
    generalize d * 2 ^ (floorLog2 (t / d) - 52) = D at *
    generalize t % D = r at *
    generalize D * (t / D) = X at *
    omega

/-- Rounding does not go below an integer that is at most the ratio, as long as
the ratio is below `2 ^ 53`. -/
theorem roundRatio_lower_int (t d k : Nat) (hd : 0 < d) (ht : t / d < 2 ^ 1127)
    (hk : k * scale * d ≤ t) : k * scale ≤ roundRatio t d := by
  apply roundRatio_lower t d (k * scale) hd hk
  have hlt : floorLog2 (t / d) < 1127 := floorLog2_lt _ _ ht (by decide)
  have hpow : 2 ^ (floorLog2 (t / d) - 52) ∣ 2 ^ 1074 :=
    Nat.pow_dvd_pow 2 (by omega)
  exact Dvd.dvd.mul_left hpow k

/-- The scale as a power of two. -/
theorem scale_eq : scale = 2 ^ 1074 := rfl

/-- An integer up to `2 ^ 53` is a binary64 number. -/
theorem roundRatio_int (n : Nat) (h : n ≤ 2 ^ 53) : roundRatio (n * scale) 1 = n * scale := by
  have hdvd : 2 ^ (floorLog2 (n * scale) - 52) ∣ n * scale := by
    by_cases h53 : n = 2 ^ 53
    · have hs : n * scale = 2 ^ 1127 := by
        rw [h53]; rfl
      rw [hs]
      have hl : floorLog2 (2 ^ 1127) < 1128 := floorLog2_lt _ _ (by
        apply Nat.pow_lt_pow_right <;> decide) (by decide)
      exact Nat.pow_dvd_pow 2 (by omega)
    · have hlt : n * scale < 2 ^ 1127 := by
        rw [scale_eq]
        omega
      have hl : floorLog2 (n * scale) < 1127 := floorLog2_lt _ _ hlt (by decide)
      exact Dvd.dvd.mul_left (Nat.pow_dvd_pow 2 (by omega)) n
  have := roundRatio_exact (n * scale) 1 (by decide) hdvd
  simpa using this

/-- The number for an integer up to `2 ^ 53` is that integer. -/
theorem ofNat_eq (n : Nat) (h : n ≤ 2 ^ 53) : JsNumber.ofNat n = .fin false (n * scale) := by
  unfold JsNumber.ofNat JsNumber.ofRatio
  rw [roundRatio_int n h, if_pos]
  rw [scale_eq]
  omega

/-! ## Decimal numerals -/

/-- The character of a decimal digit has the code point `48 + d`. -/
theorem digitChar_toNat (d : Nat) (h : d < 10) : (Nat.digitChar d).toNat = 48 + d := by
  interval_cases d <;> rfl

/-- With fuel above the number, the digits are written in front of the
accumulator. -/
theorem toDigitsCore_append :
    ∀ (n fuel : Nat) (ds : List Char), n < fuel →
      Nat.toDigitsCore 10 fuel n ds = Nat.toDigitsCore 10 (n + 1) n [] ++ ds := by
  intro n
  induction n using Nat.strong_induction_on with
  | _ n ih =>
    intro fuel ds h
    obtain ⟨f, rfl⟩ : ∃ f, fuel = f + 1 := ⟨fuel - 1, by omega⟩
    by_cases h0 : n / 10 = 0
    · simp [Nat.toDigitsCore, h0]
    · have hlt : n / 10 < n := by omega
      have e1 : Nat.toDigitsCore 10 (f + 1) n ds =
          Nat.toDigitsCore 10 f (n / 10) (Nat.digitChar (n % 10) :: ds) := by
        simp [Nat.toDigitsCore, h0]
      have e2 : Nat.toDigitsCore 10 (n + 1) n [] =
          Nat.toDigitsCore 10 n (n / 10) [Nat.digitChar (n % 10)] := by
        simp [Nat.toDigitsCore, h0]
      rw [e1, e2, ih (n / 10) hlt f _ (by omega), ih (n / 10) hlt n _ hlt]
      simp

/-- The numeral of a number: one digit below 10, else the numeral of the tenth
part followed by the last digit. -/
theorem toDigits_step (n : Nat) :
    Nat.toDigits 10 n =
      if n < 10 then [Nat.digitChar n]
      else Nat.toDigits 10 (n / 10) ++ [Nat.digitChar (n % 10)] := by
  unfold Nat.toDigits
  by_cases h : n < 10
  · rw [if_pos h]
    have h0 : n / 10 = 0 := by omega
    have hm : n % 10 = n := by omega
    simp [Nat.toDigitsCore, h0, hm]
  · rw [if_neg h]
    have h0 : n / 10 ≠ 0 := by omega
    have e : Nat.toDigitsCore 10 (n + 1) n [] =
        Nat.toDigitsCore 10 n (n / 10) [Nat.digitChar (n % 10)] := by
      simp [Nat.toDigitsCore, h0]
    rw [e, toDigitsCore_append (n / 10) n _ (by omega)]

/-- A numeral is a non-empty run of decimal digits whose value is the number. -/
theorem toDigits_decimal (n : Nat) :
    Nat.toDigits 10 n ≠ [] ∧ (∀ c ∈ Nat.toDigits 10 n, 48 ≤ c.toNat ∧ c.toNat ≤ 57) ∧
      (Nat.toDigits 10 n).foldl (fun acc c => acc * 10 + (c.toNat - 48)) 0 = n := by
  induction n using Nat.strong_induction_on with
  | _ n ih =>
    rw [toDigits_step]
    by_cases h : n < 10
    · rw [if_pos h]
      have hd := digitChar_toNat n h
      refine ⟨by simp, ?_, ?_⟩
      · intro c hc
        simp only [List.mem_singleton] at hc
        subst hc
        omega
      · simp only [List.foldl_cons, List.foldl_nil, hd]
        omega
    · rw [if_neg h]
      have hd := digitChar_toNat (n % 10) (Nat.mod_lt _ (by decide))
      obtain ⟨-, hdig, hval⟩ := ih (n / 10) (by omega)
      refine ⟨by simp, ?_, ?_⟩
      · intro c hc
        rcases List.mem_append.mp hc with hc | hc
        · exact hdig c hc
        · simp only [List.mem_singleton] at hc
          subst hc
          omega
      · rw [List.foldl_append, hval]
        simp only [List.foldl_cons, List.foldl_nil, hd]
        omega

/-- A positive number is at least `10 ^ (k - 1)` and below `10 ^ k` for its
number of digits `k`. -/
theorem digitCount_bounds (n : Nat) (h : 0 < n) :
    10 ^ (digitCount n - 1) ≤ n ∧ n < 10 ^ digitCount n ∧ 0 < digitCount n := by
  unfold digitCount
  induction n using Nat.strong_induction_on with
  | _ n ih =>
    rw [toDigits_step]
    by_cases h10 : n < 10
    · rw [if_pos h10]
      simp
      omega
    · rw [if_neg h10]
      obtain ⟨h1, h2, h3⟩ := ih (n / 10) (by omega) (by omega)
      simp only [List.length_append, List.length_singleton, Nat.add_sub_cancel]
      refine ⟨?_, ?_, by omega⟩
      · have e : (Nat.toDigits 10 (n / 10)).length =
            ((Nat.toDigits 10 (n / 10)).length - 1) + 1 := by omega
        rw [e, Nat.pow_succ]
        omega
      · rw [Nat.pow_succ]
        omega

/-- Appending zeros to the numeral of a positive number multiplies by powers of
ten. -/
theorem toDigits_mul_pow (s j : Nat) (h : 0 < s) :
    Nat.toDigits 10 (s * 10 ^ j) = Nat.toDigits 10 s ++ List.replicate j '0' := by
  induction j with
  | zero => simp
  | succ j ih =>
    rw [toDigits_step]
    have hpos : 0 < s * 10 ^ j := Nat.mul_pos h (Nat.pow_pos (by decide))
    have e : s * 10 ^ (j + 1) = s * 10 ^ j * 10 := by rw [Nat.pow_succ]; ring
    rw [e, if_neg (by omega), Nat.mul_div_cancel _ (by decide), Nat.mul_mod_left, ih]
    simp [List.replicate_succ']
    rfl

/-! ## `Number::toString` on integers -/

/-- An integer above `N` and at most `2 * N` does not round to `N < 2 ^ 53`. -/
theorem roundRatio_above (N c : Nat) (hN : N < 2 ^ 53) (h1 : N < c) (h2 : c ≤ 2 * N) :
    roundRatio (c * scale) 1 ≠ N * scale := by
  by_cases hc : c ≤ 2 ^ 53
  · rw [roundRatio_int c hc]
    intro h
    have := Nat.eq_of_mul_eq_mul_right (by rw [scale_eq]; exact Nat.pow_pos (by decide)) h
    omega
  · have hlt : c * scale / 1 < 2 ^ 1128 := by
      rw [Nat.div_one, scale_eq]
      omega
    have hl : floorLog2 (c * scale / 1) < 1128 := floorLog2_lt _ _ hlt (by decide)
    have hge : 2 ^ 1127 ≤ roundRatio (c * scale) 1 := by
      apply roundRatio_lower (c * scale) 1 (2 ^ 1127) (by decide)
      · rw [scale_eq]
        omega
      · exact Nat.pow_dvd_pow 2 (by omega)
    intro h
    rw [h, scale_eq] at hge
    omega

/-- On an integer `N < 2 ^ 53` with `n` digits, the search for the shortest
digits ends with digits `s` and a count `k₁ ≤ n` such that `s` followed by
`n - k₁` zeros is `N`. -/
theorem shortestDigits_int (N n : Nat) (hN : N < 2 ^ 53) (hn1 : 10 ^ (n - 1) ≤ N) :
    ∀ fuel k : Nat, 1 ≤ k → k ≤ n → n < k + fuel →
      ∃ s k₁ : Nat, k₁ ≤ n ∧
        shortestDigits (N * scale) (n : Int) fuel k = (s, k₁, (n : Int)) ∧
        s * 10 ^ (n - k₁) = N := by
  have hscale : 0 < scale := by rw [scale_eq]; exact Nat.pow_pos (by decide)
  intro fuel
  induction fuel with
  | zero => intro k _ h2 h3; omega
  | succ f ih =>
    intro k hk1 hkn hfuel
    have hp : ((n : Int) - (k : Int)) = Int.ofNat (n - k) := by
      rw [Int.ofNat_eq_coe]; omega
    have h10 : 0 < 10 ^ (n - k) := Nat.pow_pos (by decide)
    have hlo : scaledFloor (N * scale) ((n : Int) - (k : Int)) = N / 10 ^ (n - k) := by
      rw [hp]
      show N * scale / (scale * 10 ^ (n - k)) = _
      rw [Nat.mul_comm N scale, Nat.mul_div_mul_left _ _ hscale]
    have hle : N / 10 ^ (n - k) * 10 ^ (n - k) ≤ N := Nat.div_mul_le_self _ _
    have hgt : N < (N / 10 ^ (n - k) + 1) * 10 ^ (n - k) := by
      have := Nat.lt_succ_self (N / 10 ^ (n - k))
      exact (Nat.div_lt_iff_lt_mul h10).mp this
    have hpow : 10 ^ (n - k) ≤ N := by
      calc 10 ^ (n - k) ≤ 10 ^ (n - 1) := Nat.pow_le_pow_right (by decide) (by omega)
        _ ≤ N := hn1
    have hhi2 : (N / 10 ^ (n - k) + 1) * 10 ^ (n - k) ≤ 2 * N := by
      rw [Nat.add_mul, Nat.one_mul]
      omega
    have hokLo : roundsTo (N * scale) (N / 10 ^ (n - k)) ((n : Int) - (k : Int)) =
        decide (N / 10 ^ (n - k) * 10 ^ (n - k) = N) := by
      rw [hp]
      show (roundRatio (N / 10 ^ (n - k) * 10 ^ (n - k) * scale) 1 == N * scale) = _
      rw [roundRatio_int _ (by omega)]
      by_cases he : N / 10 ^ (n - k) * 10 ^ (n - k) = N
      · rw [he]; simp
      · have : N / 10 ^ (n - k) * 10 ^ (n - k) * scale ≠ N * scale := by
          intro h
          exact he (Nat.eq_of_mul_eq_mul_right hscale h)
        simp [he, this]
    have hokHi : roundsTo (N * scale) (N / 10 ^ (n - k) + 1) ((n : Int) - (k : Int)) = false := by
      rw [hp]
      show (roundRatio ((N / 10 ^ (n - k) + 1) * 10 ^ (n - k) * scale) 1 == N * scale) = false
      have := roundRatio_above N _ hN hgt hhi2
      simp [this]
    unfold shortestDigits
    simp only [hlo, hokLo, hokHi, Bool.false_and, Bool.false_eq_true, if_false]
    by_cases he : N / 10 ^ (n - k) * 10 ^ (n - k) = N
    · refine ⟨N / 10 ^ (n - k), k, hkn, ?_, he⟩
      simp [he]
    · have hklt : k < n := by
        rcases Nat.lt_or_ge k n with h | h
        · exact h
        · exfalso
          have : n - k = 0 := by omega
          rw [this] at he
          simp at he
      obtain ⟨s, k₁, hk₁, hsd, hs⟩ := ih (k + 1) (by omega) (by omega) (by omega)
      refine ⟨s, k₁, hk₁, ?_, hs⟩
      simp only [he, decide_False, Bool.false_eq_true, if_false]
      exact_mod_cast hsd

/-- `Number::toString` writes an integer below `2 ^ 53` as its decimal
numeral. -/
theorem toString_int (N : Nat) (hN : N < 2 ^ 53) :
    (JsNumber.fin false (N * scale)).toString = String.mk (Nat.toDigits 10 N) := by
  have hscale : 0 < scale := by rw [scale_eq]; exact Nat.pow_pos (by decide)
  by_cases h0 : N = 0
  · subst h0
    rfl
  · have hpos : 0 < N := Nat.pos_of_ne_zero h0
    obtain ⟨hb1, hb2, hb3⟩ := digitCount_bounds N hpos
    have hn16 : digitCount N ≤ 16 := by
      by_contra hcon
      have : 10 ^ 16 ≤ 10 ^ (digitCount N - 1) := Nat.pow_le_pow_right (by decide) (by omega)
      omega
    have hexp : decimalExponent (N * scale) = (digitCount N : Int) := by
      unfold decimalExponent
      rw [if_pos (Nat.le_mul_of_pos_left scale hpos), Nat.mul_div_cancel _ hscale]
    obtain ⟨s, k₁, hk₁, hsd, hs⟩ :=
      shortestDigits_int N (digitCount N) hN hb1 17 1 (Nat.le_refl 1) hb3 (by omega)
    have hunits : N * scale ≠ 0 := Nat.mul_ne_zero h0 (Nat.ne_of_gt hscale)
    have hspos : 0 < s := by
      rcases Nat.eq_zero_or_pos s with h | h
      · rw [h] at hs; omega
      · exact h
    unfold JsNumber.toString
    simp only [hunits, if_false, hexp, hsd, Bool.false_eq_true, String.empty_append]
    unfold formatDigits
    simp only []
    rw [if_pos ⟨by omega, by omega⟩]
    have e : ((digitCount N : Int) - (k₁ : Int)).toNat = digitCount N - k₁ := by omega
    rw [e, ← toDigits_mul_pow s _ hspos, hs]

/-! ## Reading numerals -/

/-- A decimal digit character is not white space. -/
theorem isWhiteSpace_of_digit (c : Char) (h : 48 ≤ c.toNat ∧ c.toNat ≤ 57) :
    isWhiteSpace c = false := by
  unfold isWhiteSpace
  simp only [List.mem_cons, List.mem_singleton, List.not_mem_nil, or_false, Bool.or_eq_false_iff,
    decide_eq_false_iff_not, Bool.and_eq_false_iff]
  omega

/-- Stripping white space off the front of a run of digits changes nothing. -/
theorem dropWhile_isWhiteSpace_of_digits (l : List Char)
    (h : ∀ c ∈ l, 48 ≤ c.toNat ∧ c.toNat ≤ 57) : l.dropWhile isWhiteSpace = l := by
  cases l with
  | nil => rfl
  | cons c cs =>
    rw [List.dropWhile_cons, isWhiteSpace_of_digit c (h c (List.mem_cons_self _ _))]
    simp

/-- A run of digits carries no sign. -/
theorem takeSign_of_digits (l : List Char) (h : ∀ c ∈ l, 48 ≤ c.toNat ∧ c.toNat ≤ 57) :
    takeSign l = (false, l) := by
  unfold takeSign
  split
  · have := h '-' (List.mem_cons_self _ _)
    simp at this
  · have := h '+' (List.mem_cons_self _ _)
    simp at this
  · rfl

/-- A run of digits has no `0x` prefix for `parseInt`. -/
theorem stripHexPrefix_of_digits (l : List Char) (h : ∀ c ∈ l, 48 ≤ c.toNat ∧ c.toNat ≤ 57) :
    stripHexPrefix l = (10, l) := by
  unfold stripHexPrefix
  split
  · have := h 'x' (by simp)
    simp at this
  · have := h 'X' (by simp)
    simp at this
  · rfl

/-- A run of digits has no radix prefix. -/
theorem radixPrefix_of_digits (l : List Char) (h : ∀ c ∈ l, 48 ≤ c.toNat ∧ c.toNat ≤ 57) :
    radixPrefix l = none := by
  unfold radixPrefix
  split
  · have := h 'x' (by simp)
    simp at this
  · have := h 'X' (by simp)
    simp at this
  · have := h 'o' (by simp)
    simp at this
  · have := h 'O' (by simp)
    simp at this
  · have := h 'b' (by simp)
    simp at this
  · have := h 'B' (by simp)
    simp at this
  · rfl

/-- On a run of decimal digits, every character is read as a digit. -/
theorem digitPrefix_of_digits (l : List Char) (h : ∀ c ∈ l, 48 ≤ c.toNat ∧ c.toNat ≤ 57) :
    digitPrefix 10 l = l.map fun c => c.toNat - 48 := by
  induction l with
  | nil => rfl
  | cons c cs ih =>
    have hc := h c (List.mem_cons_self _ _)
    have hv : digitValue 10 c = some (c.toNat - 48) := by
      unfold digitValue
      simp only []
      rw [if_pos ⟨hc.1, hc.2, by omega⟩]
    unfold digitPrefix
    rw [hv]
    simp only [List.map_cons]
    rw [ih (fun x hx => h x (List.mem_cons_of_mem _ hx))]

/-- The digit values of a numeral give the number back. -/
theorem digitsToNat_toDigits (n : Nat) :
    digitsToNat 10 (digitPrefix 10 (Nat.toDigits 10 n)) = n ∧
      digitPrefix 10 (Nat.toDigits 10 n) ≠ [] ∧
      (digitPrefix 10 (Nat.toDigits 10 n)).length = (Nat.toDigits 10 n).length := by
  obtain ⟨hne, hdig, hval⟩ := toDigits_decimal n
  rw [digitPrefix_of_digits _ hdig]
  refine ⟨?_, by simpa using hne, by simp⟩
  unfold digitsToNat
  rw [List.foldl_map, hval]

/-- `parseInt` reads the decimal numeral of an integer below `2 ^ 53` as that
integer. -/
theorem parseInt_numeral (n : Nat) (h : n < 2 ^ 53) :
    parseInt (toString n) = .fin false (n * scale) := by
  obtain ⟨hne, hdig, -⟩ := toDigits_decimal n
  obtain ⟨hval, hpne, -⟩ := digitsToNat_toDigits n
  have hdata : (toString n).data = Nat.toDigits 10 n := rfl
  unfold parseInt
  simp only [hdata]
  rw [dropWhile_isWhiteSpace_of_digits _ hdig, takeSign_of_digits _ hdig]
  simp only []
  rw [stripHexPrefix_of_digits _ hdig]
  simp only []
  cases hds : digitPrefix 10 (Nat.toDigits 10 n) with
  | nil => exact absurd hds hpne
  | cons d ds =>
    rw [← hds, hval]
    unfold JsNumber.ofRatio
    rw [roundRatio_int n (by omega), if_pos]
    rw [scale_eq]
    omega

/-- `ToNumber` reads the decimal numeral of an integer below `2 ^ 53` as that
integer. -/
theorem toNumber_numeral (n : Nat) (h : n < 2 ^ 53) :
    toNumber (toString n) = .fin false (n * scale) := by
  obtain ⟨hne, hdig, -⟩ := toDigits_decimal n
  obtain ⟨hval, hpne, hlen⟩ := digitsToNat_toDigits n
  have hrev : ∀ c ∈ (Nat.toDigits 10 n).reverse, 48 ≤ c.toNat ∧ c.toNat ≤ 57 :=
    fun c hc => hdig c (List.mem_reverse.mp hc)
  have hdata : (toString n).data = Nat.toDigits 10 n := rfl
  have hinf : Nat.toDigits 10 n ≠ "Infinity".data := by
    intro heq
    have := hdig 'I' (by rw [heq]; decide)
    simp at this
  unfold toNumber
  simp only [hdata]
  rw [dropWhile_isWhiteSpace_of_digits _ hdig, dropWhile_isWhiteSpace_of_digits _ hrev,
    List.reverse_reverse, if_neg hne, radixPrefix_of_digits _ hdig]
  simp only []
  rw [takeSign_of_digits _ hdig]
  simp only []
  unfold unsignedDecimal
  rw [if_neg hinf]
  simp only []
  rw [hlen, List.drop_length]
  have hf : fractionPart [] = ([], []) := rfl
  have he : exponentPart [] = some (0, []) := rfl
  rw [hf]
  simp only []
  rw [if_neg (by simp [hpne]), he]
  simp only [List.append_nil, hval, List.length_nil]
  show JsNumber.ofRatio false (n * 10 ^ 0 * scale) 1 = _
  unfold JsNumber.ofRatio
  rw [Nat.pow_zero, Nat.mul_one, roundRatio_int n (by omega), if_pos]
  rw [scale_eq]
  omega

/-! ## The call-duration display -/

/-- Below 100, padding the decimal numeral to two places gives the tens digit
followed by the units digit. -/
theorem zeroPad_two (n : Nat) (h : n < 100) :
    padStart (String.mk (Nat.toDigits 10 n)) 2 "0" =
      String.mk [Nat.digitChar (n / 10), Nat.digitChar (n % 10)] := by
  interval_cases n <;> rfl

/-- The integer part of a number that lies between two consecutive integers. -/
theorem floor_units (y q : Nat) (h1 : q * scale ≤ y) (h2 : y < (q + 1) * scale) :
    y / scale = q := by
  rw [scale_eq] at *
  omega

/-- Below `2 ^ 51` the three quotients of `updateCallTimestamp`, each rounded to
binary64, have the integer parts of the exact quotients. -/
theorem quotients_floor (ms : Nat) (h : ms < 2 ^ 51) :
    roundRatio (ms * scale) 1000 / scale = ms / 1000 ∧
      roundRatio (roundRatio (ms * scale) 1000) 60 / scale = ms / 60000 ∧
      roundRatio (roundRatio (roundRatio (ms * scale) 1000) 60) 60 / scale = ms / 3600000 := by
  have u1 := roundRatio_upper (ms * scale) 1000 (by decide)
  have u2 := roundRatio_upper (roundRatio (ms * scale) 1000) 60 (by decide)
  have u3 := roundRatio_upper (roundRatio (roundRatio (ms * scale) 1000) 60) 60 (by decide)
  have l1 : ms / 1000 * scale ≤ roundRatio (ms * scale) 1000 := by
    apply roundRatio_lower_int _ _ _ (by decide)
    · rw [scale_eq]; omega
    · rw [scale_eq]; omega
  have l2 : ms / 60000 * scale ≤ roundRatio (roundRatio (ms * scale) 1000) 60 := by
    apply roundRatio_lower_int _ _ _ (by decide)
    · generalize roundRatio (ms * scale) 1000 = y1 at *
      simp only [scale_eq] at *
      omega
    · generalize roundRatio (ms * scale) 1000 = y1 at *
      simp only [scale_eq] at *
      omega
  have l3 : ms / 3600000 * scale ≤
      roundRatio (roundRatio (roundRatio (ms * scale) 1000) 60) 60 := by
    apply roundRatio_lower_int _ _ _ (by decide)
    · generalize roundRatio (ms * scale) 1000 = y1 at *
      generalize roundRatio y1 60 = y2 at *
      simp only [scale_eq] at *
      omega
    · generalize roundRatio (ms * scale) 1000 = y1 at *
      generalize roundRatio y1 60 = y2 at *
      simp only [scale_eq] at *
      omega
  refine ⟨floor_units _ _ l1 ?_, floor_units _ _ l2 ?_, floor_units _ _ l3 ?_⟩
  · generalize roundRatio (ms * scale) 1000 = y1 at *
    simp only [scale_eq] at *
    omega
  · generalize roundRatio (ms * scale) 1000 = y1 at *
    generalize roundRatio y1 60 = y2 at *
    simp only [scale_eq] at *
    omega
  · generalize roundRatio (ms * scale) 1000 = y1 at *
    generalize roundRatio y1 60 = y2 at *
    generalize roundRatio y2 60 = y3 at *
    simp only [scale_eq] at *
    omega

/-- The remainder by 60 of a non-negative integer number. -/
theorem mod_units (q : Nat) : (q * scale) % (60 * scale) = q % 60 * scale :=
  Nat.mul_mod_mul_right scale q 60

/-- The text `updateCallTimestamp` writes for a count below `2 ^ 51`. -/
theorem callDuration_eq (ms : Nat) (w : World) (h : ms < 2 ^ 51) :
    (updateCallTimestamp (JsNumber.ofNat ms) w).ui.callDuration =
      toString (ms / 3600000) ++ ":" ++
        String.mk [Nat.digitChar (ms / 60000 % 60 / 10), Nat.digitChar (ms / 60000 % 60 % 10)]
        ++ ":" ++
        String.mk [Nat.digitChar (ms / 1000 % 60 / 10), Nat.digitChar (ms / 1000 % 60 % 10)] := by
  obtain ⟨q1, q2, q3⟩ := quotients_floor ms h
  have hm60 : ms / 60000 % 60 < 60 := Nat.mod_lt _ (by decide)
  have hs60 : ms / 1000 % 60 < 60 := Nat.mod_lt _ (by decide)
  rw [ofNat_eq ms (by omega)]
  show (JsNumber.fin false
        (roundRatio (roundRatio (roundRatio (ms * scale) 1000) 60) 60 / scale * scale)).toString
      ++ ":" ++
      padStart (JsNumber.fin false
        (roundRatio (roundRatio (ms * scale) 1000) 60 / scale * scale % (60 * scale))).toString
        2 "0" ++ ":" ++
      padStart (JsNumber.fin false
        (roundRatio (ms * scale) 1000 / scale * scale % (60 * scale))).toString 2 "0" = _
  rw [q1, q2, q3, mod_units, mod_units, toString_int _ (by omega), toString_int _ (by omega),
    toString_int _ (by omega), zeroPad_two _ (by omega), zeroPad_two _ (by omega)]
  rfl

/-- C5, as amended: for every non-negative integer `ms` below `2 ^ 51`,
`updateCallTimestamp(ms)` writes to the call-duration display, and to nothing
else, the text `H:MM:SS` where `H` is the decimal numeral of `ms / 3600000`
(rounded down, unpadded), `MM` is the two digits of `ms / 60000 mod 60` and `SS`
the two digits of `ms / 1000 mod 60`, both at most 59; 0 gives `0:00:00`,
3661000 gives `1:01:01` and 360000000 gives `100:00:00`. -/
theorem updateCallTimestamp_format (ms : Nat) (w : World) (h : ms < 2 ^ 51) :
    (updateCallTimestamp (JsNumber.ofNat ms) w).ui.callDuration =
        toString (ms / 3600000) ++ ":" ++
          String.mk [Nat.digitChar (ms / 60000 % 60 / 10), Nat.digitChar (ms / 60000 % 60 % 10)]
          ++ ":" ++
          String.mk [Nat.digitChar (ms / 1000 % 60 / 10), Nat.digitChar (ms / 1000 % 60 % 10)] ∧
      ms / 60000 % 60 ≤ 59 ∧ ms / 1000 % 60 ≤ 59 ∧
      updateCallTimestamp (JsNumber.ofNat ms) w =
        { w with ui := { w.ui with
            callDuration := (updateCallTimestamp (JsNumber.ofNat ms) w).ui.callDuration } } ∧
      (updateCallTimestamp (JsNumber.ofNat 0) w).ui.callDuration = "0:00:00" ∧
      (updateCallTimestamp (JsNumber.ofNat 3661000) w).ui.callDuration = "1:01:01" ∧
      (updateCallTimestamp (JsNumber.ofNat 360000000) w).ui.callDuration = "100:00:00" := by
  have hm60 : ms / 60000 % 60 < 60 := Nat.mod_lt _ (by decide)
  have hs60 : ms / 1000 % 60 < 60 := Nat.mod_lt _ (by decide)
  refine ⟨callDuration_eq ms w h, by omega, by omega, rfl, ?_, ?_, ?_⟩
  · rw [callDuration_eq 0 w (by decide)]; rfl
  · rw [callDuration_eq 3661000 w (by decide)]; rfl
  · rw [callDuration_eq 360000000 w (by decide)]; rfl

/-- A call of three hours, twenty minutes and five seconds. -/
theorem updateCallTimestamp_format_witness :
    (12005000 < 2 ^ 51) ∧
      (updateCallTimestamp (JsNumber.ofNat 12005000) blankWorld).ui.callDuration = "3:20:05" :=
  ⟨by decide, by
    rw [(updateCallTimestamp_format 12005000 blankWorld (by decide)).1]; rfl⟩

/-- The claim C5 as stated, for every non-negative integer, fails: the count
144115188075856992 is a binary64 number, the seconds of `floor(ms / 1000) mod 60`
are 16, and `updateCallTimestamp` writes 17, because `ms / 1000` rounds up to the
next integer. -/
theorem updateCallTimestamp_format_counterexample :
    JsNumber.ofNat 144115188075856992 = .fin false (144115188075856992 * scale) ∧
      144115188075856992 / 1000 % 60 = 16 ∧
      (updateCallTimestamp (JsNumber.ofNat 144115188075856992) blankWorld).ui.callDuration =
        "40031996687:44:17" ∧
      ¬ (updateCallTimestamp (JsNumber.ofNat 144115188075856992) blankWorld).ui.callDuration =
        toString (144115188075856992 / 3600000) ++ ":" ++
          String.mk [Nat.digitChar (144115188075856992 / 60000 % 60 / 10),
            Nat.digitChar (144115188075856992 / 60000 % 60 % 10)] ++ ":" ++
          String.mk [Nat.digitChar (144115188075856992 / 1000 % 60 / 10),
            Nat.digitChar (144115188075856992 / 1000 % 60 % 10)] := by
  decide

/-! ## Building the option lists -/

/-- There are at most as many occurrences as characters. -/
theorem countOccurrences_le (s : List Char) : countOccurrences [',', ' '] s ≤ s.length := by
  induction s with
  | nil => simp [countOccurrences]
  | cons c cs ih =>
    rw [countOccurrences_cons]
    simp only [List.length_cons]
    split <;> omega

/-- The `forEach` loop from counter `n` with `acc` already built. -/
theorem buildOptions_foldl (selected : JsNumber) :
    ∀ (devices : List String) (n : Nat) (acc : List OptionElement),
      devices.foldl
          (fun (st : Nat × List OptionElement) device =>
            (st.1 + 1, st.2 ++ [({ value := (JsNumber.ofNat st.1).toString
                                   innerText := device
                                   selected := selected.looseEq st.1 } : OptionElement)]))
          (n, acc) =
        (n + devices.length,
          acc ++ (devices.enumFrom n).map fun p =>
            ({ value := (JsNumber.ofNat p.1).toString
               innerText := p.2
               selected := selected.looseEq p.1 } : OptionElement)) := by
  intro devices
  induction devices with
  | nil => intro n acc; simp
  | cons d ds ih =>
    intro n acc
    rw [List.foldl_cons, ih]
    simp [List.enumFrom_cons, Nat.add_comm, Nat.add_left_comm]

/-- The option list is the device list with positions attached; below `2 ^ 53`
devices every position is written as its decimal numeral. -/
theorem buildOptions_eq (devices : List String) (selected : JsNumber)
    (h : devices.length ≤ 2 ^ 53) :
    buildOptions devices selected =
      devices.enum.map fun p =>
        ({ value := toString p.1, innerText := p.2, selected := selected.looseEq p.1 }
          : OptionElement) := by
  unfold buildOptions
  rw [buildOptions_foldl]
  simp only [List.nil_append]
  apply List.map_congr_left
  intro p hp
  have hlt : p.1 < devices.length := List.fst_lt_of_mem_enum hp
  have hv : (JsNumber.ofNat p.1).toString = toString p.1 := by
    rw [ofNat_eq p.1 (by omega), toString_int p.1 (by omega)]
    rfl
  rw [hv]

/-- A number equals at most one counter up to `2 ^ 53`. -/
theorem looseEq_unique (x : JsNumber) (i j : Nat) (hi : i ≤ 2 ^ 53) (hj : j ≤ 2 ^ 53)
    (h1 : x.looseEq i = true) (h2 : x.looseEq j = true) : i = j := by
  have hscale : 0 < scale := by rw [scale_eq]; exact Nat.pow_pos (by decide)
  unfold JsNumber.looseEq at h1 h2
  rw [ofNat_eq i hi] at h1
  rw [ofNat_eq j hj] at h2
  cases x with
  | nan => simp [JsNumber.equal] at h1
  | inf a => simp [JsNumber.equal] at h1
  | fin a m =>
    simp only [JsNumber.equal, Bool.and_eq_true, beq_iff_eq] at h1 h2
    have := h1.1.symm.trans h2.1
    exact Nat.eq_of_mul_eq_mul_right hscale this

/-- The integer `j` equals exactly the counter `j`. -/
theorem looseEq_int (i j : Nat) (hi : i ≤ 2 ^ 53) :
    (JsNumber.fin false (j * scale)).looseEq i = decide (i = j) := by
  have hscale : 0 < scale := by rw [scale_eq]; exact Nat.pow_pos (by decide)
  unfold JsNumber.looseEq
  rw [ofNat_eq i hi]
  by_cases h : i = j
  · subst h
    simp [JsNumber.equal]
  · have : j * scale ≠ i * scale := by
      intro he
      exact h (Nat.eq_of_mul_eq_mul_right hscale he).symm
    simp [JsNumber.equal, h, this]

/-- A list with the option at position `j` selected and no other keeps its
marks when all but the last selected option are unselected. -/
theorem keepLastSelected_index (f : Nat → String) (j : Nat) :
    ∀ (l : List String) (n : Nat),
      keepLastSelected ((l.enumFrom n).map fun p =>
          ({ value := f p.1, innerText := p.2, selected := decide (p.1 = j) } : OptionElement)) =
        (l.enumFrom n).map fun p =>
          ({ value := f p.1, innerText := p.2, selected := decide (p.1 = j) } : OptionElement) := by
  intro l
  induction l with
  | nil => intro n; rfl
  | cons a l ih =>
    intro n
    simp only [List.enumFrom_cons, List.map_cons]
    unfold keepLastSelected
    split
    · rename_i hany
      rw [List.any_eq_true] at hany
      obtain ⟨o, ho, hsel⟩ := hany
      obtain ⟨p, hp, rfl⟩ := List.mem_map.mp ho
      have hge := List.le_fst_of_mem_enumFrom hp
      simp only [decide_eq_true_eq] at hsel
      have hn : decide (n = j) = false := by
        simp only [decide_eq_false_iff_not]
        omega
      rw [ih (n + 1)]
      simp [hn]
    · rfl

/-- A `select` element keeps the marks of a list that has the option at an
existing position `j` selected and no other. -/
theorem setSelectedness_index (markup : SelectMarkup) (f : Nat → String) (l : List String)
    (j : Nat) (hj : j < l.length) :
    setSelectedness markup (l.enum.map fun p =>
        ({ value := f p.1, innerText := p.2, selected := decide (p.1 = j) } : OptionElement)) =
      l.enum.map fun p =>
        ({ value := f p.1, innerText := p.2, selected := decide (p.1 = j) } : OptionElement) := by
  unfold setSelectedness
  by_cases hm : markup.multiple = true
  · rw [if_pos hm]
  · rw [if_neg hm]
    have hnot : ¬ (l.enum.map fun p =>
        ({ value := f p.1, innerText := p.2, selected := decide (p.1 = j) } : OptionElement)).all
          (fun o => !o.selected) = true := by
      intro hall
      rw [List.all_eq_true] at hall
      have hmem : (j, l[j]) ∈ l.enum := List.mk_mem_enum_iff_getElem?.mpr (by simp [hj])
      have := hall _ (List.mem_map.mpr ⟨(j, l[j]), hmem, rfl⟩)
      simp at this
    rw [if_neg hnot]
    exact keepLastSelected_index f j l 0

/-- What `loadSettings` leaves on the page when the host answers each of its
requests first with a success, `reply m` being the payload for request `m`. -/
theorem loadSettings_of_success (markup : Markup) (host : Host) (reply : String → String)
    (hall : ∀ m, ∃ later, host m false = .onSuccess (reply m) :: later) (w : World) :
    (loadSettings markup host w).ui =
      { w.ui with
        settingsInputDisplayName := reply "getDisplayName"
        settingsSelectAudioIn := setSelectedness markup.selectAudioIn
          (buildOptions (split (reply "audioListIn") ", ") (parseInt (reply "audioGetIn")))
        settingsSelectAudioOut := setSelectedness markup.selectAudioOut
          (buildOptions (split (reply "audioListOut") ", ") (parseInt (reply "audioGetOut")))
        settingsSelectAudioClip := setSelectedness markup.selectAudioClip
          (buildOptions (split (reply "audioListClip") ", ") (parseInt (reply "audioGetClip")))
        settingsInputAudioInVolume :=
          ((toNumber (reply "audioGetInVolume")).div 100).floor.toString
        settingsInputAudioOutVolume :=
          ((toNumber (reply "audioGetOutVolume")).div 100).floor.toString
        settingsInputAudioClipVolume :=
          ((toNumber (reply "audioGetClipVolume")).div 100).floor.toString
        settingsAudioInVolumeDisplay :=
          ((toNumber (reply "audioGetInVolume")).div 100).floor.toString ++ "%"
        settingsAudioOutVolumeDisplay :=
          ((toNumber (reply "audioGetOutVolume")).div 100).floor.toString ++ "%"
        settingsAudioClipVolumeDisplay :=
          ((toNumber (reply "audioGetClipVolume")).div 100).floor.toString ++ "%"
        settingsModalOpen := true } := by
  obtain ⟨l1, h1⟩ := hall "audioRefreshDevices"
  obtain ⟨l2, h2⟩ := hall "audioListIn"
  obtain ⟨l3, h3⟩ := hall "audioListOut"
  obtain ⟨l4, h4⟩ := hall "audioListClip"
  obtain ⟨l5, h5⟩ := hall "audioGetIn"
  obtain ⟨l6, h6⟩ := hall "audioGetOut"
  obtain ⟨l7, h7⟩ := hall "audioGetClip"
  obtain ⟨l8, h8⟩ := hall "getDisplayName"
  obtain ⟨l9, h9⟩ := hall "audioGetInVolume"
  obtain ⟨l10, h10⟩ := hall "audioGetOutVolume"
  obtain ⟨l11, h11⟩ := hall "audioGetClipVolume"
  unfold loadSettings
  rw [awaitCall_of_onSuccess host "audioRefreshDevices" _ _ _ l1 h1]
  simp only []
  rw [awaitCall_of_onSuccess host "audioListIn" _ _ _ l2 h2]
  simp only []
  rw [awaitCall_of_onSuccess host "audioListOut" _ _ _ l3 h3]
  simp only []
  rw [awaitCall_of_onSuccess host "audioListClip" _ _ _ l4 h4]
  simp only []
  rw [awaitCall_of_onSuccess host "audioGetIn" _ _ _ l5 h5]
  simp only []
  rw [awaitCall_of_onSuccess host "audioGetOut" _ _ _ l6 h6]
  simp only []
  rw [awaitCall_of_onSuccess host "audioGetClip" _ _ _ l7 h7]
  simp only []
  rw [awaitCall_of_onSuccess host "getDisplayName" _ _ _ l8 h8]
  simp only []
  rw [awaitCall_of_onSuccess host "audioGetInVolume" _ _ _ l9 h9]
  simp only []
  rw [awaitCall_of_onSuccess host "audioGetOutVolume" _ _ _ l10 h10]
  simp only []
  rw [awaitCall_of_onSuccess host "audioGetClipVolume" _ _ _ l11 h11]

/-- C7: for every device-list response `s` (an ECMAScript string, so shorter than
`2 ^ 53`) and every selected index `k` (the result of `parseInt` on the host's
answer), the option list built from `s` is, in order, one option per segment of
`s` split on `", "`: the option at position `i` has value `i`, the `i`-th
segment as label, and is selected exactly when `k` equals `i`; when the host
reports the index as the decimal numeral of `j`, that is exactly when `i` is
`j`.  The segments joined by `", "` give `s` back, none contains `", "`, and
their number is the number of occurrences of `", "` in `s` plus one; at most
one option is selected.  `"Mic 1, Mic 2"` gives exactly two options (a
drop-down handed them with none selected selects the first itself), and a
device name containing `", "` is cut there.  When the host answers every
request of `loadSettings` with a success, each `select` element is handed the
list built this way from the host's answers, and when the reported index `j` is
the position of a segment the element holds that list with the option at `j`
selected and no other. -/
theorem loadSettings_option_lists (s : String) (k : JsNumber) (hs : s.length < 2 ^ 53) :
    buildOptions (split s ", ") k =
        ((split s ", ").enum.map fun p =>
          ({ value := toString p.1, innerText := p.2, selected := k.looseEq p.1 }
            : OptionElement)) ∧
      (∀ j : Nat, j < 2 ^ 53 →
        buildOptions (split s ", ") (parseInt (toString j)) =
          ((split s ", ").enum.map fun p =>
            ({ value := toString p.1, innerText := p.2, selected := decide (p.1 = j) }
              : OptionElement))) ∧
      (buildOptions (split s ", ") k).length = countOccurrences ", ".data s.data + 1 ∧
      ", ".data.intercalate ((split s ", ").map String.data) = s.data ∧
      (∀ seg ∈ split s ", ", ¬ ", ".data <:+: seg.data) ∧
      (∀ (i j : Nat) (oi oj : OptionElement), (buildOptions (split s ", ") k)[i]? = some oi →
        (buildOptions (split s ", ") k)[j]? = some oj →
        oi.selected = true → oj.selected = true → i = j) ∧
      buildOptions (split "Mic 1, Mic 2" ", ") (parseInt "1") =
        [{ value := "0", innerText := "Mic 1", selected := false },
         { value := "1", innerText := "Mic 2", selected := true }] ∧
      setSelectedness dropDown (buildOptions (split "Mic 1, Mic 2" ", ") (parseInt "none")) =
        [{ value := "0", innerText := "Mic 1", selected := true },
         { value := "1", innerText := "Mic 2", selected := false }] ∧
      (buildOptions (split "Speakers (Front, Rear), USB" ", ") k).map (fun o => o.innerText) =
        ["Speakers (Front", "Rear)", "USB"] ∧
      (∀ (markup : Markup) (host : Host) (reply : String → String) (w : World),
        (∀ m, ∃ later, host m false = .onSuccess (reply m) :: later) →
        (loadSettings markup host w).ui.settingsSelectAudioIn =
            setSelectedness markup.selectAudioIn
              (buildOptions (split (reply "audioListIn") ", ") (parseInt (reply "audioGetIn"))) ∧
          (loadSettings markup host w).ui.settingsSelectAudioOut =
            setSelectedness markup.selectAudioOut
              (buildOptions (split (reply "audioListOut") ", ") (parseInt (reply "audioGetOut"))) ∧
          (loadSettings markup host w).ui.settingsSelectAudioClip =
            setSelectedness markup.selectAudioClip
              (buildOptions (split (reply "audioListClip") ", ")
                (parseInt (reply "audioGetClip")))) ∧
      (∀ (markup : Markup) (host : Host) (reply : String → String) (w : World) (j : Nat),
        (∀ m, ∃ later, host m false = .onSuccess (reply m) :: later) →
        reply "audioListIn" = s → reply "audioGetIn" = toString j →
        j < (split s ", ").length →
        (loadSettings markup host w).ui.settingsSelectAudioIn =
          ((split s ", ").enum.map fun p =>
            ({ value := toString p.1, innerText := p.2, selected := decide (p.1 = j) }
              : OptionElement))) := by
  obtain ⟨hlen, hjoin, hseg⟩ := split_comma_space s
  have hcount : (split s ", ").length ≤ 2 ^ 53 := by
    have h1 := countOccurrences_le s.data
    have h2 : s.data.length = s.length := rfl
    have h3 : ", ".data = [',', ' '] := rfl
    rw [hlen, h3]
    omega
  have htie : ∀ j : Nat, j < 2 ^ 53 →
      buildOptions (split s ", ") (parseInt (toString j)) =
        ((split s ", ").enum.map fun p =>
          ({ value := toString p.1, innerText := p.2, selected := decide (p.1 = j) }
            : OptionElement)) := by
    intro j hj
    rw [buildOptions_eq _ _ hcount, parseInt_numeral j hj]
    apply List.map_congr_left
    intro p hp
    have hlt : p.1 < (split s ", ").length := List.fst_lt_of_mem_enum hp
    rw [looseEq_int p.1 j (by omega)]
  refine ⟨buildOptions_eq _ _ hcount, htie, ?_, hjoin, hseg, ?_, ?_, ?_, ?_, ?_, ?_⟩
  · rw [buildOptions_eq _ _ hcount, List.length_map, List.enum_length, hlen]
  · intro i j oi oj hi hj hsi hsj
    rw [buildOptions_eq _ _ hcount] at hi hj
    rw [List.getElem?_map, List.getElem?_enum] at hi hj
    cases hsi' : (split s ", ")[i]? with
    | none => rw [hsi'] at hi; simp at hi
    | some a =>
      cases hsj' : (split s ", ")[j]? with
      | none => rw [hsj'] at hj; simp at hj
      | some b =>
        have hil : i < (split s ", ").length := by
          by_contra hcon
          rw [List.getElem?_eq_none (by omega)] at hsi'
          simp at hsi'
        have hjl : j < (split s ", ").length := by
          by_contra hcon
          rw [List.getElem?_eq_none (by omega)] at hsj'
          simp at hsj'
        rw [hsi'] at hi
        rw [hsj'] at hj
        simp only [Option.map_some', Option.some.injEq] at hi hj
        subst hi
        subst hj
        exact looseEq_unique k i j (by omega) (by omega) hsi hsj
  · rw [show ("1" : String) = toString 1 from rfl]
    have hc : (split "Mic 1, Mic 2" ", ").length ≤ 2 ^ 53 := by decide
    rw [buildOptions_eq _ _ hc, parseInt_numeral 1 (by decide)]
    have e0 := looseEq_int 0 1 (by decide)
    have e1 := looseEq_int 1 1 (by decide)
    show [({ value := toString 0, innerText := "Mic 1",
              selected := (JsNumber.fin false (1 * scale)).looseEq 0 } : OptionElement),
          { value := toString 1, innerText := "Mic 2",
            selected := (JsNumber.fin false (1 * scale)).looseEq 1 }] = _
    rw [e0, e1]
    rfl
  · have hc : (split "Mic 1, Mic 2" ", ").length ≤ 2 ^ 53 := by decide
    rw [buildOptions_eq _ _ hc]
    rfl
  · have hc : (split "Speakers (Front, Rear), USB" ", ").length ≤ 2 ^ 53 := by decide
    rw [buildOptions_eq _ _ hc]
    rfl
  · intro markup host reply w hall
    rw [loadSettings_of_success markup host reply hall w]
    exact ⟨rfl, rfl, rfl⟩
  · intro markup host reply w j hall hlist hget hj
    rw [loadSettings_of_success markup host reply hall w]
    show setSelectedness markup.selectAudioIn
      (buildOptions (split (reply "audioListIn") ", ") (parseInt (reply "audioGetIn"))) = _
    rw [hlist, hget, htie j (by omega)]
    exact setSelectedness_index markup.selectAudioIn (fun i => toString i) (split s ", ") j hj

/-- The host reports the devices `Mic 1, Mic 2` and the index 1: the drop-down
holds two options, the second one selected. -/
theorem loadSettings_option_lists_witness :
    ("Mic 1, Mic 2" : String).length < 2 ^ 53 ∧
      (loadSettings dropDownMarkup micHost blankWorld).ui.settingsSelectAudioIn =
        [{ value := "0", innerText := "Mic 1", selected := false },
         { value := "1", innerText := "Mic 2", selected := true }] :=
  ⟨by decide, by
    rw [(loadSettings_option_lists "Mic 1, Mic 2" .nan (by decide)).2.2.2.2.2.2.2.2.2.2
      dropDownMarkup micHost micReply blankWorld 1 (fun _ => ⟨[], rfl⟩) rfl rfl (by decide)]
    rfl⟩

/-! ## Volume sliders -/

/-- The seven requests of `saveSettings`, in order. -/
theorem saveSettings_bridge (host : Host) (w : World) :
    (saveSettings host w).bridge = w.bridge ++
      [bridgeArg ("setDisplayName " ++ w.ui.settingsInputDisplayName) none,
       bridgeArg ("audioSetIn " ++ selectValue w.ui.settingsSelectAudioIn) none,
       bridgeArg ("audioSetOut " ++ selectValue w.ui.settingsSelectAudioOut) none,
       bridgeArg ("audioSetClip " ++ selectValue w.ui.settingsSelectAudioClip) none,
       bridgeArg ("audioSetInVolume " ++
         ((toNumber w.ui.settingsInputAudioInVolume).mul 100).toString) none,
       bridgeArg ("audioSetOutVolume " ++
         ((toNumber w.ui.settingsInputAudioOutVolume).mul 100).toString) none,
       bridgeArg ("audioSetClipVolume " ++
         ((toNumber w.ui.settingsInputAudioClipVolume).mul 100).toString) none] := by
  simp [saveSettings, call]

/-- Writing `Math.floor(v / 100)` into a slider for the host's answer `v`, below
`2 ^ 53`. -/
theorem floor_div_toNumber_toString (v : Nat) (h : v < 2 ^ 53) :
    ((toNumber (toString v)).div 100).floor.toString = toString (v / 100) := by
  rw [toNumber_numeral v h]
  show (JsNumber.fin false (roundRatio (v * scale) 100 / scale * scale)).toString = _
  have u := roundRatio_upper (v * scale) 100 (by decide)
  have l : v / 100 * scale ≤ roundRatio (v * scale) 100 := by
    apply roundRatio_lower_int _ _ _ (by decide)
    · rw [scale_eq]; omega
    · rw [scale_eq]; omega
  have q : roundRatio (v * scale) 100 / scale = v / 100 := by
    apply floor_units _ _ l
    generalize roundRatio (v * scale) 100 = y at *
    simp only [scale_eq] at *
    omega
  rw [q, toString_int _ (by omega)]
  rfl

/-- Reading a slider that holds `q` back and multiplying by 100, the product
below `2 ^ 53`. -/
theorem mul_toNumber_toString (q : Nat) (h : 100 * q < 2 ^ 53) :
    ((toNumber (toString q)).mul 100).toString = toString (100 * q) := by
  rw [toNumber_numeral q (by omega)]
  show (JsNumber.ofRatio false (q * scale * 100) 1).toString = _
  have e : q * scale * 100 = 100 * q * scale := by ring
  unfold JsNumber.ofRatio
  rw [e, roundRatio_int _ (by omega), if_pos (by rw [scale_eq]; omega),
    toString_int _ h]
  rfl

/-- C9, as amended: when the host answers every request of `loadSettings` with a
success and reports the volumes as the decimal numerals of `vIn`, `vOut` and
`vClip`, each below `2 ^ 53`, `loadSettings` writes `vIn / 100`, `vOut / 100`
and `vClip / 100` (rounded down) into the three sliders, and `saveSettings` run
on that page sends `audioSetInVolume`, `audioSetOutVolume` and
`audioSetClipVolume` with `100 * (v / 100)` for the respective `v`.  That number
never exceeds `v`, equals `v` exactly when `v` is a multiple of 100, and is less
than `v` by at most 99, which happens for `v = 199`. -/
theorem volume_load_save_rounds_down (markup : Markup) (host host2 : Host)
    (reply : String → String) (w : World) (vIn vOut vClip : Nat)
    (hall : ∀ m, ∃ later, host m false = .onSuccess (reply m) :: later)
    (hIn : reply "audioGetInVolume" = toString vIn)
    (hOut : reply "audioGetOutVolume" = toString vOut)
    (hClip : reply "audioGetClipVolume" = toString vClip)
    (hbIn : vIn < 2 ^ 53) (hbOut : vOut < 2 ^ 53) (hbClip : vClip < 2 ^ 53) :
    ((loadSettings markup host w).ui.settingsInputAudioInVolume = toString (vIn / 100) ∧
      (loadSettings markup host w).ui.settingsInputAudioOutVolume = toString (vOut / 100) ∧
      (loadSettings markup host w).ui.settingsInputAudioClipVolume = toString (vClip / 100)) ∧
    (((saveSettings host2 (loadSettings markup host w)).bridge.drop
        ((loadSettings markup host w).bridge.length + 4)).map fun arg => arg.request) =
      ["audioSetInVolume " ++ toString (100 * (vIn / 100)),
       "audioSetOutVolume " ++ toString (100 * (vOut / 100)),
       "audioSetClipVolume " ++ toString (100 * (vClip / 100))] ∧
    (∀ v : Nat, 100 * (v / 100) ≤ v ∧ (100 * (v / 100) = v ↔ 100 ∣ v) ∧
      v - 100 * (v / 100) ≤ 99) ∧
    (199 - 100 * (199 / 100) = 99) := by
  have hui := loadSettings_of_success markup host reply hall w
  have h1 : (loadSettings markup host w).ui.settingsInputAudioInVolume = toString (vIn / 100) := by
    rw [hui]
    show ((toNumber (reply "audioGetInVolume")).div 100).floor.toString = _
    rw [hIn, floor_div_toNumber_toString vIn hbIn]
  have h2 : (loadSettings markup host w).ui.settingsInputAudioOutVolume =
      toString (vOut / 100) := by
    rw [hui]
    show ((toNumber (reply "audioGetOutVolume")).div 100).floor.toString = _
    rw [hOut, floor_div_toNumber_toString vOut hbOut]
  have h3 : (loadSettings markup host w).ui.settingsInputAudioClipVolume =
      toString (vClip / 100) := by
    rw [hui]
    show ((toNumber (reply "audioGetClipVolume")).div 100).floor.toString = _
    rw [hClip, floor_div_toNumber_toString vClip hbClip]
  refine ⟨⟨h1, h2, h3⟩, ?_, ?_, by decide⟩
  · rw [saveSettings_bridge, h1, h2, h3, mul_toNumber_toString _ (by omega),
      mul_toNumber_toString _ (by omega), mul_toNumber_toString _ (by omega)]
    simp [List.drop_append, bridgeArg]
  · intro v
    refine ⟨Nat.mul_div_le v 100, ?_, ?_⟩
    · constructor
      · intro h
        exact ⟨v / 100, h.symm⟩
      · intro h
        exact Nat.mul_div_cancel' h
    · omega

/-- The host reports every volume as 250: the sliders hold 2 and 200 is sent. -/
theorem volume_load_save_rounds_down_witness :
    (250 < 2 ^ 53) ∧
      (((saveSettings okHost (loadSettings dropDownMarkup micHost blankWorld)).bridge.drop
          ((loadSettings dropDownMarkup micHost blankWorld).bridge.length + 4)).map
            fun arg => arg.request) =
        ["audioSetInVolume 200", "audioSetOutVolume 200", "audioSetClipVolume 200"] :=
  ⟨by decide,
    (volume_load_save_rounds_down dropDownMarkup micHost okHost micReply blankWorld 250 250 250
      (fun _ => ⟨[], rfl⟩) rfl rfl rfl (by decide) (by decide) (by decide)).2.1⟩

/-- The slider for the volume 900719925474099456. -/
theorem slider_of_900719925474099456 :
    ((toNumber "900719925474099456").div 100).floor.toString = "9007199254740994" := by
  decide

/-- The volume sent back from a slider holding 9007199254740994. -/
theorem volume_of_9007199254740994 :
    ((toNumber "9007199254740994").mul 100).toString = "900719925474099500" := by
  decide

/-- The slider for the volume 9007199254740999. -/
theorem slider_of_9007199254740999 :
    ((toNumber "9007199254740999").div 100).floor.toString = "90071992547410" := by
  decide

/-- The volume sent back from a slider holding 90071992547410. -/
theorem volume_of_90071992547410 :
    ((toNumber "90071992547410").mul 100).toString = "9007199254741000" := by
  decide

/-- The claim C9 as stated, for every non-negative integer volume, fails.  For
the volume 900719925474099456 the slider holds `floor(v / 100)`, which is
9007199254740994, and the command sent back carries 900719925474099500, which
is neither `100 * floor(v / 100)` nor at most the volume.  For the volume
9007199254740999 the command sent back carries 9007199254741000, again more
than the volume. -/
theorem volume_load_save_rounds_down_counterexample :
    (loadSettings dropDownMarkup (constantHost "900719925474099456")
        blankWorld).ui.settingsInputAudioInVolume = toString (900719925474099456 / 100) ∧
      (((saveSettings okHost (loadSettings dropDownMarkup (constantHost "900719925474099456")
          blankWorld)).bridge.drop
          ((loadSettings dropDownMarkup (constantHost "900719925474099456")
            blankWorld).bridge.length + 4)).map fun arg => arg.request) =
        ["audioSetInVolume 900719925474099500", "audioSetOutVolume 900719925474099500",
         "audioSetClipVolume 900719925474099500"] ∧
      100 * (900719925474099456 / 100) = 900719925474099400 ∧
      900719925474099456 < 900719925474099500 ∧
      (((saveSettings okHost (loadSettings dropDownMarkup (constantHost "9007199254740999")
          blankWorld)).bridge.drop
          ((loadSettings dropDownMarkup (constantHost "9007199254740999")
            blankWorld).bridge.length + 4)).map fun arg => arg.request) =
        ["audioSetInVolume 9007199254741000", "audioSetOutVolume 9007199254741000",
         "audioSetClipVolume 9007199254741000"] ∧
      9007199254740999 < 9007199254741000 := by
  have hA := loadSettings_of_success dropDownMarkup (constantHost "900719925474099456")
    (fun _ => "900719925474099456") (fun _ => ⟨[], rfl⟩) blankWorld
  have hB := loadSettings_of_success dropDownMarkup (constantHost "9007199254740999")
    (fun _ => "9007199254740999") (fun _ => ⟨[], rfl⟩) blankWorld
  have a1 := slider_of_900719925474099456
  have a2 := volume_of_9007199254740994
  have b1 := slider_of_9007199254740999
  have b2 := volume_of_90071992547410
  have hAv : (loadSettings dropDownMarkup (constantHost "900719925474099456")
      blankWorld).ui.settingsInputAudioInVolume = "9007199254740994" := by
    rw [hA]; exact a1
  have hAo : (loadSettings dropDownMarkup (constantHost "900719925474099456")
      blankWorld).ui.settingsInputAudioOutVolume = "9007199254740994" := by
    rw [hA]; exact a1
  have hAc : (loadSettings dropDownMarkup (constantHost "900719925474099456")
      blankWorld).ui.settingsInputAudioClipVolume = "9007199254740994" := by
    rw [hA]; exact a1
  have hBv : (loadSettings dropDownMarkup (constantHost "9007199254740999")
      blankWorld).ui.settingsInputAudioInVolume = "90071992547410" := by
    rw [hB]; exact b1
  have hBo : (loadSettings dropDownMarkup (constantHost "9007199254740999")
      blankWorld).ui.settingsInputAudioOutVolume = "90071992547410" := by
    rw [hB]; exact b1
  have hBc : (loadSettings dropDownMarkup (constantHost "9007199254740999")
      blankWorld).ui.settingsInputAudioClipVolume = "90071992547410" := by
    rw [hB]; exact b1
  refine ⟨?_, ?_, by decide, by decide, ?_, by decide⟩
  · rw [hAv]; decide
  · rw [saveSettings_bridge, hAv, hAo, hAc, a2]
    simp [List.drop_append, bridgeArg]
  · rw [saveSettings_bridge, hBv, hBo, hBc, b2]
    simp [List.drop_append, bridgeArg]

end StitzClient
